import Mathlib

/-!
A verification development for the QuickPackage deployment orchestrator
(`type.go` and the main program file).

The embedding models:
* paths as lists of cleaned components (no `""`, `"."` or `".."`
  components); an absolute path `/a/b` is `["a", "b"]`, and a path given
  relative to the process working directory is resolved by prepending the
  `cwd` component list before it is looked up;
* the file system as an association list from paths to file contents,
  where lookup returns the first matching entry; a directory exists
  exactly when some file lies strictly below it (the model has no empty
  directories);
* every external effect — service-manager subcommands, script execution,
  directory creation/removal, unit-file writes — as an event appended to
  a trace; the results of those external commands are supplied by an
  oracle (`Env`), and `log.Fatalf` is modelled by a `fatal` flag that
  truncates the run.

Scripts are modelled as external processes: running one records a trace
event and consults the oracle for its exit status, but has no effect on
the modelled file system.  Globs are modelled for patterns without
metacharacters, for which Go's `filepath.Glob` returns the pattern
itself exactly when the named file exists.
-/

namespace QP

/-- A file-system path as its list of cleaned components. -/
abbrev Path := List String

/-- The file system: an association list from paths to file contents.
Lookup takes the first matching entry. -/
abbrev FS := List (Path × String)

/-- Content of the file at `p`, if any. -/
def lookupFS (fs : FS) (p : Path) : Option String :=
  (fs.find? (fun e => e.1 == p)).map (fun e => e.2)

/-- Go `strings.HasPrefix`, via the character lists of the two strings. -/
def strHasPre (p s : String) : Bool := p.data.isPrefixOf s.data

/-- Go `strings.HasSuffix`, via the character lists of the two strings. -/
def strHasSuf (s suf : String) : Bool := suf.data.isSuffixOf s.data

/-- `exists` in the source (`os.Stat(path) == nil`): a path exists when a
file lies at it or below it (directories exist through their contents). -/
def existsPath (fs : FS) (p : Path) : Bool := fs.any (fun e => p.isPrefixOf e.1)

/-- `cp.Copy src dst` (github.com/otiai10/copy): recursively copies the
file or directory tree at `src` onto `dst`, overwriting files in place
and keeping files under `dst` that have no counterpart under `src`. -/
def cpCopy (fs : FS) (src dst : Path) : FS :=
  (fs.filterMap fun e =>
    if src.isPrefixOf e.1 then some (dst ++ e.1.drop src.length, e.2) else none) ++ fs

/-- `os.RemoveAll p`: delete the file or directory tree rooted at `p`. -/
def removeAllFS (fs : FS) (p : Path) : FS :=
  fs.filter (fun e => !(p.isPrefixOf e.1))

/-- `filepath.Rel base targ` on cleaned component lists: strip the common
prefix, then one `".."` per remaining base component.  On the cleaned
paths of this model the Go function cannot return an error. -/
def goRel : Path → Path → Path
  | [], t => t
  | b :: bs, [] => (b :: bs).map fun _ => ".."
  | b :: bs, t :: ts =>
    if b = t then goRel bs ts else ((b :: bs).map fun _ => "..") ++ t :: ts

/-- `filepath.Base` on a cleaned component list: the last component
(`"/"` for the empty, i.e. root, path). -/
def goBase : Path → String
  | [] => "/"
  | [c] => c
  | _ :: cs => goBase cs

/-! ### The configuration and service-unit data model (`type.go`) -/

/-- One `install_files` entry: a path and its provenance (`from`). -/
structure FileEntry where
  file : Path
  from_ : String
deriving Repr, DecidableEq

/-- The deployment descriptor.  Script fields are cleaned relative paths;
`[]` stands for the empty string (script not configured). -/
structure Config where
  appName : String
  buildFiles : List Path
  installFiles : List FileEntry
  buildScript : Path
  installScript : Path
  uninstallScript : Path
  systemd : Bool
  systemdRunAsUser : Bool
  exec : String
deriving Repr, DecidableEq

/-- `var InstallPath string = "/opt/"`. -/
def InstallPath : String := "/opt/"

/-- `filepath.Join(InstallPath, appName)` as a component list:
the install root `/opt/<appName>`. -/
def installRoot (appName : String) : Path := ["opt", appName]

structure SystemdUnit where
  name : String
  runAsUser : Bool
  execPath : String
deriving Repr, DecidableEq

def SystemdUnit.GenerateDescription (s : SystemdUnit) : String :=
  if s.runAsUser then s.name ++ " service running as user %i"
  else s.name ++ " service"

def SystemdUnit.GetUser (s : SystemdUnit) : String :=
  if s.runAsUser then "%i" else "root"

/-- `filepath.Join` on strings, for a cleaned relative second argument. -/
def goJoinStr (a b : String) : String :=
  if strHasSuf a "/" then a ++ b else a ++ "/" ++ b

/-- `SystemdUnit.GenerateFile`: the rendered unit-file text.  The format
string of the source's `fmt.Sprintf` is split at each `%s` hole and at
the line breaks adjacent to the interpolated values; concatenated, the
literal pieces are exactly the source's template. -/
def SystemdUnit.GenerateFile (s : SystemdUnit) : String :=
  let description := s.GenerateDescription
  let user := s.GetUser
  let workingDirectory := goJoinStr InstallPath s.name
  "[Unit]\n" ++ "Description=" ++ description ++ "\n" ++
  "After=network.target\n" ++ "\n" ++
  "[Service]\n" ++ "Type=simple\n" ++
  "ExecStart=" ++ s.execPath ++ "\n" ++
  "WorkingDirectory=" ++ workingDirectory ++ "\n" ++
  "Restart=always\n" ++
  "User=" ++ user ++ "\n" ++ "\n" ++
  "[Install]\n" ++ "WantedBy=multi-user.target\n"

def SystemdUnit.UnitName (s : SystemdUnit) : String :=
  if s.runAsUser then s.name ++ "@" else s.name

def SystemdUnit.UnitNameWildcard (s : SystemdUnit) : String :=
  if s.runAsUser then s.UnitName ++ "*" else s.UnitName

def SystemdUnit.UnitPath (s : SystemdUnit) : String :=
  "/usr/lib/systemd/system/" ++ s.UnitName ++ ".service"

def UnitFromConfig (c : Config) : SystemdUnit :=
  { name := c.appName, runAsUser := c.systemdRunAsUser, execPath := c.exec }

/-- `Config.GetInstallScript` (`.qp/<name>`), as a cwd-relative path. -/
def Config.GetInstallScript (c : Config) : Path := ".qp" :: c.installScript

def Config.GetBuildScript (c : Config) : Path := ".qp" :: c.buildScript

def Config.GetUninstallScript (c : Config) : Path := ".qp" :: c.uninstallScript

/-! ### Effects, traces and the oracle for external commands -/

/-- One observable external effect. -/
inductive Event where
  | cmd : List String → Event
  | mkdirAll : Path → Event
  | copied : Path → Path → Event
  | ranScript : Path → Path → Event
  | wroteUnit : String → Event
  | removedFile : String → Event
  | removedDir : Path → Event
deriving Repr, DecidableEq

/-- The mutable state outside the process: the file system and the names
listed by `os.ReadDir(os.TempDir())`, in enumeration order. -/
structure World where
  fs : FS
  tempNames : List String
deriving Repr, DecidableEq

/-- The oracle for everything the environment decides: the working
directory, the results of service-manager subcommands and scripts, and
the unique suffix `os.MkdirTemp` appends.  `polls` is the number of
`is-active` checks that still report active after a stop was issued (the
source's wait loop is unbounded; the oracle stipulates that the service
eventually stops). -/
structure Env where
  cwd : Path
  initActive : Bool
  stopOk : Bool
  polls : Nat
  mkdirOk : Bool
  tempReadOk : Bool
  mkTempOk : Bool
  mkTempSuffix : String
  buildScriptOk : Bool
  installScriptOk : Bool
  uninstallScriptOk : Bool
  unitWriteOk : Bool
  daemonReloadOk : Bool
  enableOk : Bool
  startOk : Bool
deriving Repr, DecidableEq

/-- The result of a stage or step: its trace, the world it leaves behind,
and whether it ended in `log.Fatalf`. -/
structure StepR where
  trace : List Event
  world : World
  fatal : Bool
deriving Repr, DecidableEq

/-- Sequencing under `log.Fatalf` semantics: a fatal step truncates the
run. -/
def seqS (r : StepR) (k : World → StepR) : StepR :=
  if r.fatal then r
  else { trace := r.trace ++ (k r.world).trace
         world := (k r.world).world
         fatal := (k r.world).fatal }

/-- `os.TempDir()` (`/tmp`). -/
def tmpRoot : Path := ["tmp"]

/-! ### The stages -/

/-- `copyPreserveRelBase(src, baseDir, dstRoot)`: re-root `src` under
`dstRoot` preserving its path relative to `baseDir`; a relative path of
`"."` (i.e. `src = baseDir`) is replaced by `filepath.Base(src)`. -/
def copyPreserveRelBase (fs : FS) (src baseDir dstRoot : Path) :
    FS × Path × List Event :=
  let relPath := goRel baseDir src
  let relPath := if relPath = [] then [goBase src] else relPath
  let dst := dstRoot ++ relPath
  (cpCopy fs src dst, dst, [Event.mkdirAll dst.dropLast, Event.copied src dst])

/-- `findTempBuildDir(appName)`: the first temp-directory entry whose
name starts with `qp_build_<appName>_`; `none` both when no entry
matches and when the temp directory cannot be read (the caller ignores
the error, leaving `buildDir = ""`). -/
def findTempBuildDir (tempNames : List String) (readOk : Bool)
    (appName : String) : Option Path :=
  if readOk then
    match tempNames.find? (fun n => strHasPre ("qp_build_" ++ appName ++ "_") n) with
    | some n => some (tmpRoot ++ [n])
    | none => none
  else none

/-- One `cfg.BuildFiles` pattern: for metacharacter-free patterns
`filepath.Glob` yields the pattern itself exactly when the file exists;
zero matches is only a warning. -/
def buildFilesLoop (cwd buildDir : Path) :
    List Path → FS → List Event × FS
  | [], fs => ([], fs)
  | pat :: rest, fs =>
    let step :=
      if existsPath fs (cwd ++ pat) then
        let (fs', _dst, evs) := copyPreserveRelBase fs (cwd ++ pat) cwd buildDir
        (evs, fs')
      else ([], fs)
    let next := buildFilesLoop cwd buildDir rest step.2
    (step.1 ++ next.1, next.2)

/-- Stage a configured script into `destDir` (copy from `.qp/` only when
not already present; a missing source is fatal) and run it there; a
non-zero exit is fatal. -/
def stageAndRunScript (fs : FS) (cwd destDir : Path) (script : Path)
    (exitOk : Bool) : List Event × FS × Bool :=
  let scriptPath := destDir ++ [goBase script]
  if existsPath fs scriptPath then
    ([Event.ranScript scriptPath destDir], fs, !exitOk)
  else
    let srcPath := cwd ++ ".qp" :: script
    if existsPath fs srcPath then
      ([Event.copied srcPath scriptPath, Event.ranScript scriptPath destDir],
       cpCopy fs srcPath scriptPath, !exitOk)
    else ([], fs, true)

/-- `doBuild`: make a fresh uniquely-named staging directory in `/tmp`,
copy the build files into it preserving structure relative to the
working directory, then stage and run the build script if configured. -/
def doBuild (cfg : Config) (env : Env) (w : World) : StepR :=
  if !env.mkTempOk then { trace := [], world := w, fatal := true }
  else
    let dirName := "qp_build_" ++ cfg.appName ++ "_" ++ env.mkTempSuffix
    let buildDir := tmpRoot ++ [dirName]
    let w₁ : World := { w with tempNames := w.tempNames ++ [dirName] }
    let r₁ := buildFilesLoop env.cwd buildDir cfg.buildFiles w₁.fs
    if cfg.buildScript = [] then
      { trace := r₁.1, world := { w₁ with fs := r₁.2 }, fatal := false }
    else
      let r₂ := stageAndRunScript r₁.2 env.cwd buildDir cfg.buildScript env.buildScriptOk
      { trace := r₁.1 ++ r₂.1, world := { w₁ with fs := r₂.2.1 }, fatal := r₂.2.2 }

/-- The pre-install stop: check liveness of the (wildcard) unit; if
active, issue a stop — a stop failure is `log.Fatalf` — then poll until
inactive. -/
def preStopStep (cfg : Config) (env : Env) (w : World) : StepR :=
  if cfg.systemd then
    let wc := (UnitFromConfig cfg).UnitNameWildcard
    let checkEv := Event.cmd ["systemctl", "is-active", "--quiet", wc]
    if env.initActive then
      if env.stopOk then
        { trace := checkEv :: Event.cmd ["systemctl", "stop", wc] ::
            List.replicate (env.polls + 1) checkEv
          world := w, fatal := false }
      else
        { trace := [checkEv, Event.cmd ["systemctl", "stop", wc]]
          world := w, fatal := true }
    else { trace := [checkEv], world := w, fatal := false }
  else { trace := [], world := w, fatal := false }

/-- `os.MkdirAll(installDir, 0755)`; failure is fatal. -/
def mkdirInstallStep (env : Env) (installDir : Path) (w : World) : StepR :=
  { trace := [Event.mkdirAll installDir], world := w, fatal := !env.mkdirOk }

/-- Resolve one install-file entry to its source path and copy base:
`"cwd"` resolves against the working directory, `"build"` against the
discovered staging directory (fatal when there is none), anything else
is fatal. -/
def resolveEntry (cwd : Path) (buildDir : Option Path) (e : FileEntry) :
    Option (Path × Path) :=
  if e.from_ = "cwd" then some (cwd ++ e.file, cwd)
  else if e.from_ = "build" then
    match buildDir with
    | some b => some (b ++ e.file, b)
    | none => none
  else none

/-- The install-file loop: resolve, check existence (for a `"cwd"` entry
the raw relative path is stat'ed, so the empty path never exists), and
copy preserving the base-relative path; any failure is fatal. -/
def installFilesLoop (cwd : Path) (buildDir : Option Path) (installDir : Path) :
    List FileEntry → FS → List Event × FS × Bool
  | [], fs => ([], fs, false)
  | e :: rest, fs =>
    match resolveEntry cwd buildDir e with
    | none => ([], fs, true)
    | some (srcPath, baseDir) =>
      if e.from_ = "cwd" ∧ e.file = [] then ([], fs, true)
      else if existsPath fs srcPath then
        let (fs₁, _dst, evs₁) := copyPreserveRelBase fs srcPath baseDir installDir
        let next := installFilesLoop cwd buildDir installDir rest fs₁
        (evs₁ ++ next.1, next.2.1, next.2.2)
      else ([], fs, true)

def installFilesStep (cfg : Config) (env : Env) (installDir : Path)
    (w : World) : StepR :=
  let buildDir := findTempBuildDir w.tempNames env.tempReadOk cfg.appName
  let r := installFilesLoop env.cwd buildDir installDir cfg.installFiles w.fs
  { trace := r.1, world := { w with fs := r.2.1 }, fatal := r.2.2 }

def installScriptStep (cfg : Config) (env : Env) (installDir : Path)
    (w : World) : StepR :=
  if cfg.installScript = [] then { trace := [], world := w, fatal := false }
  else
    let r := stageAndRunScript w.fs env.cwd installDir cfg.installScript
      env.installScriptOk
    { trace := r.1, world := { w with fs := r.2.1 }, fatal := r.2.2 }

/-- `installSystemdUnit`: write the unit file, `daemon-reload`, then
`enable --now` against the wildcard identity; each failure is fatal. -/
def installSystemdUnit (cfg : Config) (env : Env) (w : World) : StepR :=
  let unit := UnitFromConfig cfg
  if !env.unitWriteOk then { trace := [], world := w, fatal := true }
  else if !env.daemonReloadOk then
    { trace := [Event.wroteUnit unit.UnitPath, Event.cmd ["systemctl", "daemon-reload"]]
      world := w, fatal := true }
  else
    { trace := [Event.wroteUnit unit.UnitPath, Event.cmd ["systemctl", "daemon-reload"],
        Event.cmd ["systemctl", "enable", "--now", unit.UnitNameWildcard]]
      world := w, fatal := !env.enableOk }

/-- The post-install `systemctl start`; failure is fatal. -/
def startServiceStep (cfg : Config) (env : Env) (w : World) : StepR :=
  { trace := [Event.cmd ["systemctl", "start", (UnitFromConfig cfg).UnitNameWildcard]]
    world := w, fatal := !env.startOk }

def systemdInstallStep (cfg : Config) (env : Env) (w : World) : StepR :=
  if cfg.systemd then seqS (installSystemdUnit cfg env w) (startServiceStep cfg env)
  else { trace := [], world := w, fatal := false }

/-- The post-install cleanup: remove every temp entry whose name carries
the `qp_build_<appName>_` prefix; never fatal (an unreadable temp
directory is only a warning). -/
def cleanupLoop (pfx : String) : List String → FS → List Event × FS
  | [], fs => ([], fs)
  | n :: rest, fs =>
    if strHasPre pfx n then
      let next := cleanupLoop pfx rest (removeAllFS fs (tmpRoot ++ [n]))
      (Event.removedDir (tmpRoot ++ [n]) :: next.1, next.2)
    else cleanupLoop pfx rest fs

def cleanupStep (cfg : Config) (env : Env) (w : World) : StepR :=
  if env.tempReadOk then
    let pfx := "qp_build_" ++ cfg.appName ++ "_"
    let r := cleanupLoop pfx w.tempNames w.fs
    { trace := r.1
      world := { fs := r.2, tempNames := w.tempNames.filter (fun n => !(strHasPre pfx n)) }
      fatal := false }
  else { trace := [], world := w, fatal := false }

/-- `doInstall`, in the source's order: pre-install stop, create the
install root, discover the staging directory, copy the install files,
stage and run the install script, write/enable/start the unit, then
clean up the staging directories. -/
def doInstall (cfg : Config) (env : Env) (w : World) : StepR :=
  let installDir := installRoot cfg.appName
  seqS (preStopStep cfg env w) fun w₀ =>
  seqS (mkdirInstallStep env installDir w₀) fun w₁ =>
  seqS (installFilesStep cfg env installDir w₁) fun w₂ =>
  seqS (installScriptStep cfg env installDir w₂) fun w₃ =>
  seqS (systemdInstallStep cfg env w₃) fun w₄ =>
  cleanupStep cfg env w₄

/-- The uninstall teardown: stop, disable, remove the unit file,
`daemon-reload` — every error is discarded (`.Run()` results unused), so
no oracle flag is consulted. -/
def teardownStep (cfg : Config) (w : World) : StepR :=
  if cfg.systemd then
    let unit := UnitFromConfig cfg
    let wc := unit.UnitNameWildcard
    { trace := [Event.cmd ["systemctl", "stop", wc],
        Event.cmd ["systemctl", "disable", wc],
        Event.removedFile unit.UnitPath,
        Event.cmd ["systemctl", "daemon-reload"]]
      world := w, fatal := false }
  else { trace := [], world := w, fatal := false }

def uninstallScriptStep (cfg : Config) (env : Env) (installDir : Path)
    (w : World) : StepR :=
  if cfg.uninstallScript = [] then { trace := [], world := w, fatal := false }
  else
    let r := stageAndRunScript w.fs env.cwd installDir cfg.uninstallScript
      env.uninstallScriptOk
    { trace := r.1, world := { w with fs := r.2.1 }, fatal := r.2.2 }

/-- `doUninstall`: best-effort service teardown, optional uninstall
script, then unconditional recursive removal of the install root. -/
def doUninstall (cfg : Config) (env : Env) (w : World) : StepR :=
  let installDir := installRoot cfg.appName
  seqS (teardownStep cfg w) fun w₁ =>
  seqS (uninstallScriptStep cfg env installDir w₁) fun w₂ =>
  { trace := [Event.removedDir installDir]
    world := { w₂ with fs := removeAllFS w₂.fs installDir }
    fatal := false }

/-- `validateConfig`: the three eager checks (`log.Fatal` on violation). -/
def validateConfig (cfg : Config) : Bool :=
  if cfg.appName = "" then false
  else if cfg.installFiles = [] then false
  else if cfg.systemd = true ∧ cfg.exec = "" then false
  else true

/-- `main` after CLI parsing: reject unknown actions, validate the
loaded config before any stage, then dispatch (`install` runs the build
stage first). -/
def runAction (action : String) (cfg : Config) (env : Env) (w : World) : StepR :=
  if action ≠ "build" ∧ action ≠ "install" ∧ action ≠ "uninstall" then
    { trace := [], world := w, fatal := true }
  else if !validateConfig cfg then { trace := [], world := w, fatal := true }
  else if action = "build" then doBuild cfg env w
  else if action = "install" then seqS (doBuild cfg env w) (fun w₁ => doInstall cfg env w₁)
  else doUninstall cfg env w

/-! ### Derived notions used in the claim statements -/

/-- `sub` occurs contiguously inside `s` (stated on character lists). -/
def ContainsStr (s sub : String) : Prop :=
  ∃ a b : List Char, s.data = a ++ sub.data ++ b

/-- Events satisfying `p` all come strictly before events satisfying `q`. -/
def eventsOrdered (p q : Event → Bool) (t : List Event) : Prop :=
  ∀ i j, (hi : i < t.length) → (hj : j < t.length) →
    p (t.get ⟨i, hi⟩) = true → q (t.get ⟨j, hj⟩) = true → i < j

/-- A `systemctl stop` invocation. -/
def isStopCmd : Event → Bool
  | Event.cmd ("systemctl" :: "stop" :: _) => true
  | _ => false

/-- Writing, enabling or starting the service unit. -/
def isActivation : Event → Bool
  | Event.wroteUnit _ => true
  | Event.cmd ("systemctl" :: "enable" :: _) => true
  | Event.cmd ("systemctl" :: "start" :: _) => true
  | _ => false

/-- An event that mutates the tree under `root`. -/
def mutatesRoot (root : Path) : Event → Bool
  | Event.mkdirAll p => root.isPrefixOf p
  | Event.copied _ d => root.isPrefixOf d
  | Event.ranScript _ dir => root.isPrefixOf dir
  | Event.removedDir p => root.isPrefixOf p
  | _ => false

/-- A file placement or script run inside `root`. -/
def placesFiles (root : Path) : Event → Bool
  | Event.copied _ d => root.isPrefixOf d
  | Event.ranScript _ dir => root.isPrefixOf dir
  | _ => false

/-- A script execution event. -/
def isRanScript : Event → Bool
  | Event.ranScript _ _ => true
  | _ => false

/-- Removal of the directory `root`. -/
def isRemoveDirOf (root : Path) : Event → Bool
  | Event.removedDir p => p == root
  | _ => false

/-! ### Concrete instances for witnesses and counterexamples -/

/-- An oracle under which every external command succeeds. -/
def envOk : Env :=
  { cwd := ["home", "u", "proj"], initActive := true, stopOk := true, polls := 0,
    mkdirOk := true, tempReadOk := true, mkTempOk := true, mkTempSuffix := "s1",
    buildScriptOk := true, installScriptOk := true, uninstallScriptOk := true,
    unitWriteOk := true, daemonReloadOk := true, enableOk := true, startOk := true }

/-- A service-managed demo config with one `cwd` install file. -/
def cfgDemo : Config :=
  { appName := "demo", buildFiles := [], installFiles := [⟨["bin", "demo"], "cwd"⟩],
    buildScript := [], installScript := [], uninstallScript := [],
    systemd := true, systemdRunAsUser := false, exec := "/opt/demo/bin/demo" }

/-- A world holding just the demo source file in the working tree. -/
def wDemo : World :=
  { fs := [(["home", "u", "proj", "bin", "demo"], "ELF")], tempNames := [] }

/-- The collision scenario of C10: app `app`, and a staging directory of
another app whose name also starts with `qp_build_app_`. -/
def cfgApp : Config :=
  { appName := "app", buildFiles := [], installFiles := [⟨["f"], "build"⟩],
    buildScript := [], installScript := [], uninstallScript := [],
    systemd := false, systemdRunAsUser := false, exec := "" }

def wCollide : World :=
  { fs := [(["tmp", "qp_build_app_extra_7", "f"], "data")],
    tempNames := ["qp_build_app_extra_7"] }

/-- The C9 counterexample config: a build-provenance install file with an
empty relative path, which copies the staging directory itself. -/
def cfgNine : Config :=
  { appName := "app", buildFiles := [["x"]], installFiles := [⟨[], "build"⟩],
    buildScript := [], installScript := [], uninstallScript := [],
    systemd := false, systemdRunAsUser := false, exec := "" }

def wNine : World :=
  { fs := [(["home", "u", "proj", "x"], "artifact")], tempNames := [] }

/-! ### Lemmas about the file-system model -/

theorem lookupFS_isSome_iff (fs : FS) (k : Path) :
    (lookupFS fs k).isSome ↔ ∃ e ∈ fs, e.1 = k := by
  simp [lookupFS, List.find?_isSome]

theorem existsPath_iff (fs : FS) (p : Path) :
    existsPath fs p = true ↔ ∃ e ∈ fs, p <+: e.1 := by
  simp [existsPath, List.any_eq_true, List.isPrefixOf_iff_prefix]

theorem prefix_append_drop {dst q : Path} (h : dst <+: q) :
    dst ++ q.drop dst.length = q := by
  obtain ⟨r, rfl⟩ := h
  simp

theorem key_shift_iff {src dst q k : Path} (hq : dst <+: q) (hk : src <+: k) :
    dst ++ k.drop src.length = q ↔ k = src ++ q.drop dst.length := by
  obtain ⟨t, rfl⟩ := hk
  obtain ⟨s, rfl⟩ := hq
  simp

theorem find?_cpCopy_mapped {src dst q : Path} (fs : FS) (hq : dst <+: q) :
    ((fs.filterMap fun e =>
        if src.isPrefixOf e.1 then some (dst ++ e.1.drop src.length, e.2) else none).find?
      (fun e => e.1 == q))
      = (fs.find? (fun e => e.1 == src ++ q.drop dst.length)).map (fun e => (q, e.2)) := by
  induction fs with
  | nil => rfl
  | cons e fs ih =>
    simp only [List.filterMap_cons]
    by_cases hpre : src.isPrefixOf e.1 = true
    · have hpre' : src <+: e.1 := List.isPrefixOf_iff_prefix.mp hpre
      simp only [hpre, if_true]
      by_cases hk : e.1 = src ++ q.drop dst.length
      · have heq : dst ++ e.1.drop src.length = q := (key_shift_iff hq hpre').mpr hk
        have h1 : ((dst ++ e.1.drop src.length, e.2).1 == q) = true := by simp [heq]
        have h2 : (e.1 == src ++ q.drop dst.length) = true := by simp [hk]
        simp only [List.find?_cons, h1, h2]
        simp [heq]
      · have hne : ¬ (dst ++ e.1.drop src.length = q) :=
          fun h => hk ((key_shift_iff hq hpre').mp h)
        have h1 : ((dst ++ e.1.drop src.length, e.2).1 == q) = false := by simp [hne]
        have h2 : (e.1 == src ++ q.drop dst.length) = false := by simp [hk]
        simp only [List.find?_cons, h1, h2]
        exact ih
    · have hk : ¬ (e.1 = src ++ q.drop dst.length) := by
        intro h
        exact hpre (List.isPrefixOf_iff_prefix.mpr ⟨q.drop dst.length, h.symm⟩)
      have h2 : (e.1 == src ++ q.drop dst.length) = false := by simp [hk]
      simp only [hpre, if_false, List.find?_cons, h2]
      exact ih

theorem find?_cpCopy_mapped_none {src dst q : Path} (fs : FS) (hq : ¬ dst <+: q) :
    ((fs.filterMap fun e =>
        if src.isPrefixOf e.1 then some (dst ++ e.1.drop src.length, e.2) else none).find?
      (fun e => e.1 == q)) = none := by
  induction fs with
  | nil => rfl
  | cons e fs ih =>
    simp only [List.filterMap_cons]
    by_cases hpre : src.isPrefixOf e.1 = true
    · have hne : ((dst ++ e.1.drop src.length, e.2).1 == q) = false := by
        simp only [beq_eq_false_iff_ne, ne_eq]
        intro h
        exact hq ⟨e.1.drop src.length, h⟩
      simp only [hpre, if_true, List.find?_cons, hne]
      exact ih
    · simp only [hpre, if_false]
      exact ih

/-- The copy characterization: under `dst` the copied tree shadows what
was there, elsewhere nothing changes. -/
theorem lookupFS_cpCopy (fs : FS) (src dst q : Path) :
    lookupFS (cpCopy fs src dst) q =
      if dst <+: q then
        (lookupFS fs (src ++ q.drop dst.length)).or (lookupFS fs q)
      else lookupFS fs q := by
  by_cases hq : dst <+: q
  · simp only [hq, if_true, lookupFS, cpCopy, List.find?_append,
      find?_cpCopy_mapped fs hq]
    cases fs.find? (fun e => e.1 == src ++ q.drop dst.length) <;>
      cases fs.find? (fun e => e.1 == q) <;> rfl
  · simp only [hq, if_false, lookupFS, cpCopy, List.find?_append,
      find?_cpCopy_mapped_none fs hq]
    rfl

theorem lookupFS_cpCopy_not {dst q : Path} (fs : FS) (src : Path) (h : ¬ dst <+: q) :
    lookupFS (cpCopy fs src dst) q = lookupFS fs q := by
  simp [lookupFS_cpCopy, h]

theorem lookupFS_cpCopy_under (fs : FS) (src dst r : Path) :
    lookupFS (cpCopy fs src dst) (dst ++ r)
      = (lookupFS fs (src ++ r)).or (lookupFS fs (dst ++ r)) := by
  rw [lookupFS_cpCopy]
  simp

theorem lookupFS_removeAllFS (fs : FS) (p q : Path) :
    lookupFS (removeAllFS fs p) q = if p <+: q then none else lookupFS fs q := by
  induction fs with
  | nil => simp [removeAllFS, lookupFS]
  | cons e fs ih =>
    simp only [removeAllFS] at ih ⊢
    by_cases hpe : p <+: e.1
    · have hb : (!(p.isPrefixOf e.1)) = false := by
        simp [List.isPrefixOf_iff_prefix.mpr hpe]
      simp only [List.filter_cons, hb]
      rw [if_neg (by simp)]
      rw [ih]
      by_cases hq : p <+: q
      · simp [hq]
      · have hne : (e.1 == q) = false := by
          simp only [beq_eq_false_iff_ne, ne_eq]
          intro h
          exact hq (h ▸ hpe)
        simp only [hq, if_false, lookupFS, List.find?_cons, hne]
    · have hb : (!(p.isPrefixOf e.1)) = true := by
        simp only [Bool.not_eq_true']
        rw [Bool.eq_false_iff]
        intro h
        exact hpe (List.isPrefixOf_iff_prefix.mp h)
      simp only [List.filter_cons, hb]
      rw [if_pos trivial]
      by_cases he : (e.1 == q) = true
      · have heq : e.1 = q := by simpa using he
        have hq : ¬ p <+: q := heq ▸ hpe
        simp only [lookupFS, List.find?_cons, he, hq, if_false]
      · have he' : (e.1 == q) = false := by
          rw [Bool.eq_false_iff]
          exact he
        simp only [lookupFS, List.find?_cons, he'] at ih ⊢
        exact ih

theorem goRel_append (b p : Path) : goRel b (b ++ p) = p := by
  induction b with
  | nil => rfl
  | cons x bs ih => simp [goRel, ih]

theorem copyPreserveRelBase_append (fs : FS) (base p dstRoot : Path) (hp : p ≠ []) :
    copyPreserveRelBase fs (base ++ p) base dstRoot =
      (cpCopy fs (base ++ p) (dstRoot ++ p), dstRoot ++ p,
       [Event.mkdirAll (dstRoot ++ p).dropLast, Event.copied (base ++ p) (dstRoot ++ p)]) := by
  simp [copyPreserveRelBase, goRel_append, hp]

theorem copyPreserveRelBase_self (fs : FS) (base dstRoot : Path) :
    copyPreserveRelBase fs base base dstRoot =
      (cpCopy fs base (dstRoot ++ [goBase base]), dstRoot ++ [goBase base],
       [Event.mkdirAll (dstRoot ++ [goBase base]).dropLast,
        Event.copied base (dstRoot ++ [goBase base])]) := by
  have : goRel base base = [] := by
    have := goRel_append base []
    simpa using this
  simp [copyPreserveRelBase, this]

/-! ### Lemmas about sequencing and traces -/

theorem seqS_fatal (r : StepR) (k : World → StepR) :
    (seqS r k).fatal = (r.fatal || (k r.world).fatal) := by
  by_cases h : r.fatal <;> simp [seqS, h]

theorem seqS_of_ok {r : StepR} (k : World → StepR) (h : r.fatal = false) :
    seqS r k = { trace := r.trace ++ (k r.world).trace
                 world := (k r.world).world
                 fatal := (k r.world).fatal } := by
  simp [seqS, h]

theorem seqS_of_fatal {r : StepR} (k : World → StepR) (h : r.fatal = true) :
    seqS r k = r := by
  simp [seqS, h]

theorem seqS_trace_all {P : Event → Prop} {r : StepR} {k : World → StepR}
    (h₁ : ∀ e ∈ r.trace, P e) (h₂ : ∀ e ∈ (k r.world).trace, P e) :
    ∀ e ∈ (seqS r k).trace, P e := by
  by_cases h : r.fatal
  · rw [seqS_of_fatal k h]
    exact h₁
  · rw [seqS_of_ok k (by simpa using h)]
    intro e he
    rcases List.mem_append.mp he with h' | h'
    · exact h₁ e h'
    · exact h₂ e h'

theorem eventsOrdered_of_no_q {p q : Event → Bool} {t : List Event}
    (h : ∀ e ∈ t, q e = false) : eventsOrdered p q t := by
  intro i j hi hj _ hqj
  have := h (t.get ⟨j, hj⟩) (List.get_mem t j hj)
  rw [this] at hqj
  exact absurd hqj (by simp)

theorem eventsOrdered_of_no_p {p q : Event → Bool} {t : List Event}
    (h : ∀ e ∈ t, p e = false) : eventsOrdered p q t := by
  intro i j hi hj hpi _
  have := h (t.get ⟨i, hi⟩) (List.get_mem t i hi)
  rw [this] at hpi
  exact absurd hpi (by simp)

theorem eventsOrdered_append {p q : Event → Bool} {a b : List Event}
    (ha : ∀ e ∈ a, q e = false) (hb : eventsOrdered p q b) :
    eventsOrdered p q (a ++ b) := by
  intro i j hi hj hpi hqj
  have hlen : (a ++ b).length = a.length + b.length := List.length_append a b
  have hj' : a.length ≤ j := by
    by_contra hlt
    push_neg at hlt
    have : (a ++ b).get ⟨j, hj⟩ = a.get ⟨j, hlt⟩ := by
      simp [List.getElem_append_left hlt]
    rw [this] at hqj
    have := ha (a.get ⟨j, hlt⟩) (List.get_mem a j hlt)
    rw [this] at hqj
    exact absurd hqj (by simp)
  by_cases hia : i < a.length
  · omega
  · push_neg at hia
    have hib : i - a.length < b.length := by omega
    have hjb : j - a.length < b.length := by omega
    have hgi : (a ++ b).get ⟨i, hi⟩ = b.get ⟨i - a.length, hib⟩ := by
      simp [List.getElem_append_right hia]
    have hgj : (a ++ b).get ⟨j, hj⟩ = b.get ⟨j - a.length, hjb⟩ := by
      simp [List.getElem_append_right hj']
    rw [hgi] at hpi
    rw [hgj] at hqj
    have := hb (i - a.length) (j - a.length) hib hjb hpi hqj
    omega

theorem eventsOrdered_seqS {p q : Event → Bool} {r : StepR} {k : World → StepR}
    (h₁ : ∀ e ∈ r.trace, q e = false)
    (h₂ : eventsOrdered p q (k r.world).trace) :
    eventsOrdered p q (seqS r k).trace := by
  by_cases h : r.fatal
  · rw [seqS_of_fatal k h]
    exact eventsOrdered_of_no_q h₁
  · rw [seqS_of_ok k (by simpa using h)]
    exact eventsOrdered_append h₁ h₂

theorem mem_seqS_left {e : Event} {r : StepR} (k : World → StepR) (h : e ∈ r.trace) :
    e ∈ (seqS r k).trace := by
  by_cases hf : r.fatal
  · rw [seqS_of_fatal k hf]
    exact h
  · rw [seqS_of_ok k (by simpa using hf)]
    exact List.mem_append.mpr (Or.inl h)

/-! ### The claims -/

/-- C5: for every config the generated unit-file text contains a
`Description` line, an `ExecStart` equal to the config's exec, a
`WorkingDirectory` equal to the install root `/opt/<appName>`,
`Restart=always`, and a `User` line that is the templated-instance
placeholder `%i` when `serviceRunAsUser` is true and the superuser
`root` otherwise. -/
theorem C5_generateFile_contents (cfg : Config) :
    ContainsStr ((UnitFromConfig cfg).GenerateFile)
      ("Description=" ++ (UnitFromConfig cfg).GenerateDescription ++ "\n")
    ∧ ContainsStr ((UnitFromConfig cfg).GenerateFile) ("ExecStart=" ++ cfg.exec ++ "\n")
    ∧ ContainsStr ((UnitFromConfig cfg).GenerateFile)
        ("WorkingDirectory=" ++ goJoinStr InstallPath cfg.appName ++ "\n")
    ∧ goJoinStr InstallPath cfg.appName = "/opt/" ++ cfg.appName
    ∧ ContainsStr ((UnitFromConfig cfg).GenerateFile) "Restart=always\n"
    ∧ ContainsStr ((UnitFromConfig cfg).GenerateFile)
        ("User=" ++ (if cfg.systemdRunAsUser then "%i" else "root") ++ "\n") := by
  refine ⟨?_, ?_, ?_, ?_, ?_, ?_⟩
  · exact ⟨("[Unit]\n" : String).data,
      ("After=network.target\n" ++ "\n" ++ "[Service]\n" ++ "Type=simple\n" ++
        "ExecStart=" ++ cfg.exec ++ "\n" ++ "WorkingDirectory=" ++
        goJoinStr InstallPath cfg.appName ++ "\n" ++ "Restart=always\n" ++ "User=" ++
        (UnitFromConfig cfg).GetUser ++ "\n" ++ "\n" ++ "[Install]\n" ++
        "WantedBy=multi-user.target\n").data,
      by simp only [SystemdUnit.GenerateFile, UnitFromConfig, String.data_append,
        List.append_assoc]⟩
  · exact ⟨("[Unit]\n" ++ "Description=" ++ (UnitFromConfig cfg).GenerateDescription ++ "\n" ++
        "After=network.target\n" ++ "\n" ++ "[Service]\n" ++ "Type=simple\n").data,
      ("WorkingDirectory=" ++ goJoinStr InstallPath cfg.appName ++ "\n" ++ "Restart=always\n" ++
        "User=" ++ (UnitFromConfig cfg).GetUser ++ "\n" ++ "\n" ++ "[Install]\n" ++
        "WantedBy=multi-user.target\n").data,
      by simp only [SystemdUnit.GenerateFile, UnitFromConfig, String.data_append,
        List.append_assoc]⟩
  · exact ⟨("[Unit]\n" ++ "Description=" ++ (UnitFromConfig cfg).GenerateDescription ++ "\n" ++
        "After=network.target\n" ++ "\n" ++ "[Service]\n" ++ "Type=simple\n" ++
        "ExecStart=" ++ cfg.exec ++ "\n").data,
      ("Restart=always\n" ++ "User=" ++ (UnitFromConfig cfg).GetUser ++ "\n" ++ "\n" ++
        "[Install]\n" ++ "WantedBy=multi-user.target\n").data,
      by simp only [SystemdUnit.GenerateFile, UnitFromConfig, String.data_append,
        List.append_assoc]⟩
  · have h : strHasSuf "/opt/" "/" = true := by decide
    simp [goJoinStr, InstallPath, h]
  · exact ⟨("[Unit]\n" ++ "Description=" ++ (UnitFromConfig cfg).GenerateDescription ++ "\n" ++
        "After=network.target\n" ++ "\n" ++ "[Service]\n" ++ "Type=simple\n" ++
        "ExecStart=" ++ cfg.exec ++ "\n" ++ "WorkingDirectory=" ++
        goJoinStr InstallPath cfg.appName ++ "\n").data,
      ("User=" ++ (UnitFromConfig cfg).GetUser ++ "\n" ++ "\n" ++ "[Install]\n" ++
        "WantedBy=multi-user.target\n").data,
      by simp only [SystemdUnit.GenerateFile, UnitFromConfig, String.data_append,
        List.append_assoc]⟩
  · exact ⟨("[Unit]\n" ++ "Description=" ++ (UnitFromConfig cfg).GenerateDescription ++ "\n" ++
        "After=network.target\n" ++ "\n" ++ "[Service]\n" ++ "Type=simple\n" ++
        "ExecStart=" ++ cfg.exec ++ "\n" ++ "WorkingDirectory=" ++
        goJoinStr InstallPath cfg.appName ++ "\n" ++ "Restart=always\n").data,
      ("\n" ++ "[Install]\n" ++ "WantedBy=multi-user.target\n").data,
      by simp only [SystemdUnit.GenerateFile, SystemdUnit.GetUser, UnitFromConfig,
        String.data_append, List.append_assoc]⟩

/-- C7: with `systemdRunAsUser = true` the derived unit name carries the
templated suffix (`appName ++ "@"`) and the status/stop/disable commands
in install and uninstall target the wildcard `appName ++ "@" ++ "*"`
matching all instantiated units; with `systemdRunAsUser = false` both the
unit name and the target are exactly `appName`. -/
theorem C7_wildcard_targets (cfg : Config) (env : Env) (w : World) :
    ((UnitFromConfig cfg).UnitName
        = (if cfg.systemdRunAsUser then cfg.appName ++ "@" else cfg.appName))
    ∧ ((UnitFromConfig cfg).UnitNameWildcard
        = (if cfg.systemdRunAsUser then (cfg.appName ++ "@") ++ "*" else cfg.appName))
    ∧ (cfg.systemd = true →
        Event.cmd ["systemctl", "stop", (UnitFromConfig cfg).UnitNameWildcard]
            ∈ (doUninstall cfg env w).trace
        ∧ Event.cmd ["systemctl", "disable", (UnitFromConfig cfg).UnitNameWildcard]
            ∈ (doUninstall cfg env w).trace)
    ∧ (cfg.systemd = true → env.initActive = true →
        Event.cmd ["systemctl", "is-active", "--quiet", (UnitFromConfig cfg).UnitNameWildcard]
            ∈ (doInstall cfg env w).trace
        ∧ Event.cmd ["systemctl", "stop", (UnitFromConfig cfg).UnitNameWildcard]
            ∈ (doInstall cfg env w).trace) := by
  refine ⟨?_, ?_, ?_, ?_⟩
  · simp [SystemdUnit.UnitName, UnitFromConfig]
  · by_cases h : cfg.systemdRunAsUser <;>
      simp [SystemdUnit.UnitNameWildcard, SystemdUnit.UnitName, UnitFromConfig, h]
  · intro hs
    constructor <;>
    · simp only [doUninstall]
      apply mem_seqS_left
      simp [teardownStep, hs]
  · intro hs ha
    constructor <;>
    · simp only [doInstall]
      apply mem_seqS_left
      by_cases hst : env.stopOk <;> simp [preStopStep, hs, ha, hst]

/-- C7 witness: the run-as-user case at a concrete config, via
`C7_wildcard_targets`. -/
theorem C7_wildcard_targets_witness :
    Event.cmd ["systemctl", "stop",
        (UnitFromConfig { cfgDemo with systemdRunAsUser := true }).UnitNameWildcard]
      ∈ (doUninstall { cfgDemo with systemdRunAsUser := true } envOk wDemo).trace
    ∧ (UnitFromConfig { cfgDemo with systemdRunAsUser := true }).UnitNameWildcard
      = ("demo" ++ "@") ++ "*" :=
  ⟨((C7_wildcard_targets { cfgDemo with systemdRunAsUser := true } envOk wDemo).2.2.1
      rfl).1,
   by simpa using (C7_wildcard_targets { cfgDemo with systemdRunAsUser := true } envOk wDemo).2.1⟩

/-- C4: the validation invariants (`installFiles` non-empty, and
`systemd` implies a non-empty `exec`) are checked before any stage runs:
on a violating config every action produces an empty trace (so no file
is copied and no stage executes) and exits fatally. -/
theorem C4_validation_blocks_stages (action : String) (cfg : Config) (env : Env) (w : World)
    (h : cfg.installFiles = [] ∨ (cfg.systemd = true ∧ cfg.exec = "")) :
    runAction action cfg env w = { trace := [], world := w, fatal := true } := by
  have hv : validateConfig cfg = false := by
    simp only [validateConfig]
    rcases h with h | h
    · split_ifs <;> simp_all
    · split_ifs <;> simp_all
  simp [runAction, hv]

/-- C4 witness: the spec's scenario `systemd = true, exec = ""` at a
concrete config: the process fails with an empty trace, no file copied. -/
theorem C4_validation_blocks_stages_witness :
    runAction "install" { cfgDemo with exec := "" } envOk wDemo
      = { trace := [], world := wDemo, fatal := true } :=
  C4_validation_blocks_stages "install" { cfgDemo with exec := "" } envOk wDemo
    (Or.inr ⟨rfl, rfl⟩)

theorem mem_seqS_right {e : Event} {r : StepR} (k : World → StepR) (hf : r.fatal = false)
    (h : e ∈ (k r.world).trace) : e ∈ (seqS r k).trace := by
  rw [seqS_of_ok k hf]
  exact List.mem_append.mpr (Or.inr h)

theorem seqS_fatal_false {r : StepR} {k : World → StepR} (h : (seqS r k).fatal = false) :
    r.fatal = false ∧ (k r.world).fatal = false := by
  rw [seqS_fatal] at h
  exact Bool.or_eq_false_iff.mp h

/-- C1 counterexample: for the service-managed demo config, when the
service is active and the `systemctl stop` of the pre-install stop step
fails, the install stage is fatal immediately: the trace holds only the
liveness check and the failed stop, no install file is ever copied.
This refutes the claim that a stop failure there is tolerated and the
stage continues. -/
theorem C1_preinstall_stop_failure_counterexample :
    (doInstall cfgDemo { envOk with stopOk := false } wDemo).fatal = true
    ∧ (doInstall cfgDemo { envOk with stopOk := false } wDemo).trace
      = [Event.cmd ["systemctl", "is-active", "--quiet", "demo"],
         Event.cmd ["systemctl", "stop", "demo"]] := by
  constructor <;> decide

/-- C1 (amended): a failure of the service-manager stop subcommand
during the pre-install stop step is itself fatal — the install stage
aborts and no file is placed in the install root — exactly like
failures on the enable/start path; stop/disable failures are tolerated
only on the uninstall teardown path, which never consults their results
and still removes the install root. -/
theorem C1_stop_failure_fatal (cfg : Config) (env : Env) (w : World)
    (hs : cfg.systemd = true) :
    (env.initActive = true → env.stopOk = false →
      (doInstall cfg env w).fatal = true
      ∧ ∀ e ∈ (doInstall cfg env w).trace,
          placesFiles (installRoot cfg.appName) e = false)
    ∧ ((env.enableOk = false ∨ env.startOk = false) →
        (doInstall cfg env w).fatal = true)
    ∧ (cfg.uninstallScript = [] →
        (doUninstall cfg env w).fatal = false
        ∧ Event.removedDir (installRoot cfg.appName) ∈ (doUninstall cfg env w).trace) := by
  refine ⟨?_, ?_, ?_⟩
  · intro ha hstop
    have hpre : preStopStep cfg env w =
        { trace := [Event.cmd ["systemctl", "is-active", "--quiet",
            (UnitFromConfig cfg).UnitNameWildcard],
            Event.cmd ["systemctl", "stop", (UnitFromConfig cfg).UnitNameWildcard]]
          world := w, fatal := true } := by
      simp [preStopStep, hs, ha, hstop]
    have : doInstall cfg env w = preStopStep cfg env w := by
      simp only [doInstall]
      exact seqS_of_fatal _ (by rw [hpre])
    rw [this, hpre]
    refine ⟨rfl, ?_⟩
    intro e he
    rcases List.mem_cons.mp he with h | h
    · rw [h]; rfl
    · rcases List.mem_cons.mp h with h | h
      · rw [h]; rfl
      · simp at h
  · intro henv
    have h5 : ∀ w' : World, (systemdInstallStep cfg env w').fatal = true := by
      intro w'
      rcases henv with he | hst
      · by_cases hw : env.unitWriteOk <;> by_cases hd : env.daemonReloadOk <;>
          simp [systemdInstallStep, installSystemdUnit, startServiceStep,
            seqS_fatal, seqS, hs, he, hw, hd]
      · by_cases hw : env.unitWriteOk <;> by_cases hd : env.daemonReloadOk <;>
          by_cases hee : env.enableOk <;>
          simp [systemdInstallStep, installSystemdUnit, startServiceStep,
            seqS_fatal, seqS, hs, hst, hw, hd, hee]
    simp [doInstall, seqS_fatal, h5]
  · intro hu
    constructor
    · simp [doUninstall, seqS_fatal, teardownStep, uninstallScriptStep, hu, hs]
    · simp only [doUninstall]
      apply mem_seqS_right _ (by simp [teardownStep, hs])
      apply mem_seqS_right _ (by simp [uninstallScriptStep, hu, teardownStep, hs])
      simp [uninstallScriptStep, hu, teardownStep, hs]

/-- C1 witness: the amended claim at the concrete demo scenario. -/
theorem C1_stop_failure_fatal_witness :
    (doInstall cfgDemo { envOk with stopOk := false } wDemo).fatal = true
    ∧ (doUninstall cfgDemo { envOk with stopOk := false } wDemo).fatal = false :=
  ⟨((C1_stop_failure_fatal cfgDemo { envOk with stopOk := false } wDemo rfl).1 rfl rfl).1,
   ((C1_stop_failure_fatal cfgDemo { envOk with stopOk := false } wDemo rfl).2.2 rfl).1⟩

/-! ### World bookkeeping across the install steps -/

theorem preStopStep_world (cfg : Config) (env : Env) (w : World) :
    (preStopStep cfg env w).world = w := by
  simp only [preStopStep]
  split_ifs <;> rfl

theorem mkdirInstallStep_world (env : Env) (d : Path) (w : World) :
    (mkdirInstallStep env d w).world = w := rfl

theorem installFilesStep_tempNames (cfg : Config) (env : Env) (d : Path) (w : World) :
    (installFilesStep cfg env d w).world.tempNames = w.tempNames := rfl

theorem installScriptStep_tempNames (cfg : Config) (env : Env) (d : Path) (w : World) :
    (installScriptStep cfg env d w).world.tempNames = w.tempNames := by
  simp only [installScriptStep]
  split_ifs <;> rfl

theorem installSystemdUnit_world (cfg : Config) (env : Env) (w : World) :
    (installSystemdUnit cfg env w).world = w := by
  simp only [installSystemdUnit]
  split_ifs <;> rfl

theorem startServiceStep_world (cfg : Config) (env : Env) (w : World) :
    (startServiceStep cfg env w).world = w := rfl

theorem systemdInstallStep_world (cfg : Config) (env : Env) (w : World) :
    (systemdInstallStep cfg env w).world = w := by
  by_cases h : cfg.systemd
  · simp only [systemdInstallStep, h, if_true]
    by_cases hf : (installSystemdUnit cfg env w).fatal
    · rw [seqS_of_fatal _ hf, installSystemdUnit_world]
    · rw [seqS_of_ok _ (by simpa using hf)]
      simp [installSystemdUnit_world, startServiceStep_world]
  · simp [systemdInstallStep, h]

/-! ### The cleanup loop removes every matching staging directory -/

theorem cleanupLoop_removes {pfx n : String} :
    ∀ (names : List String) (fs : FS), n ∈ names → strHasPre pfx n = true →
      Event.removedDir (tmpRoot ++ [n]) ∈ (cleanupLoop pfx names fs).1 := by
  intro names
  induction names with
  | nil =>
    intro fs h _
    simp at h
  | cons m rest ih =>
    intro fs hmem hpre
    rcases List.mem_cons.mp hmem with h | h
    · subst h
      simp [cleanupLoop, hpre]
    · by_cases hm : strHasPre pfx m = true
      · simp only [cleanupLoop, hm, if_true]
        exact List.mem_cons.mpr (Or.inr (ih _ h hpre))
      · have hm' : strHasPre pfx m = false := by simpa using hm
        simp only [cleanupLoop, hm', if_false]
        exact ih _ h hpre

theorem cleanupStep_removes {cfg : Config} {env : Env} {w : World} {n : String}
    (hro : env.tempReadOk = true) (hmem : n ∈ w.tempNames)
    (hpre : strHasPre ("qp_build_" ++ cfg.appName ++ "_") n = true) :
    Event.removedDir (tmpRoot ++ [n]) ∈ (cleanupStep cfg env w).trace
    ∧ n ∉ (cleanupStep cfg env w).world.tempNames := by
  constructor
  · simp only [cleanupStep, hro, if_true]
    exact cleanupLoop_removes _ _ hmem hpre
  · simp only [cleanupStep, hro, if_true]
    intro hcon
    have := (List.mem_filter.mp hcon).2
    simp [hpre] at this

/-- Every install run that reaches its end removes every staging
directory whose name carries the app prefix. -/
theorem doInstall_cleanup_removes (cfg : Config) (env : Env) (w : World) (n : String)
    (hok : (doInstall cfg env w).fatal = false) (hro : env.tempReadOk = true)
    (hmem : n ∈ w.tempNames)
    (hpre : strHasPre ("qp_build_" ++ cfg.appName ++ "_") n = true) :
    Event.removedDir (tmpRoot ++ [n]) ∈ (doInstall cfg env w).trace := by
  simp only [doInstall] at hok ⊢
  obtain ⟨h1, hok⟩ := seqS_fatal_false hok
  rw [preStopStep_world] at hok
  refine mem_seqS_right _ h1 ?_
  rw [preStopStep_world]
  obtain ⟨h2, hok⟩ := seqS_fatal_false hok
  rw [mkdirInstallStep_world] at hok
  refine mem_seqS_right _ h2 ?_
  rw [mkdirInstallStep_world]
  obtain ⟨h3, hok⟩ := seqS_fatal_false hok
  refine mem_seqS_right _ h3 ?_
  obtain ⟨h4, hok⟩ := seqS_fatal_false hok
  refine mem_seqS_right _ h4 ?_
  obtain ⟨h5, hok⟩ := seqS_fatal_false hok
  refine mem_seqS_right _ h5 ?_
  rw [systemdInstallStep_world]
  have hmem' : n ∈ ((installScriptStep cfg env (installRoot cfg.appName)
      ((installFilesStep cfg env (installRoot cfg.appName) w).world)).world).tempNames := by
    rw [installScriptStep_tempNames, installFilesStep_tempNames]
    exact hmem
  exact (cleanupStep_removes hro hmem' hpre).1

/-- C10: staging-directory discovery returns the first temp entry (in
enumeration order) whose name starts with `qp_build_<appName>_`; when
another app's staging-directory name carries that prefix (here
`qp_build_app_extra_7` for app `app`), an install of `app` discovers it
as its build source, copies from it, and the post-install cleanup
deletes it — indeed every prefix-matching temp entry. -/
theorem C10_prefix_discovery_and_cleanup :
    (∀ (app n : String) (pre post : List String),
        strHasPre ("qp_build_" ++ app ++ "_") n = true →
        (∀ m ∈ pre, strHasPre ("qp_build_" ++ app ++ "_") m = false) →
        findTempBuildDir (pre ++ n :: post) true app = some (tmpRoot ++ [n]))
    ∧ findTempBuildDir wCollide.tempNames true "app"
        = some ["tmp", "qp_build_app_extra_7"]
    ∧ Event.copied ["tmp", "qp_build_app_extra_7", "f"] ["opt", "app", "f"]
        ∈ (doInstall cfgApp envOk wCollide).trace
    ∧ Event.removedDir ["tmp", "qp_build_app_extra_7"]
        ∈ (doInstall cfgApp envOk wCollide).trace
    ∧ (doInstall cfgApp envOk wCollide).world.tempNames = []
    ∧ (∀ (cfg : Config) (env : Env) (w : World) (n : String),
        (doInstall cfg env w).fatal = false → env.tempReadOk = true →
        n ∈ w.tempNames → strHasPre ("qp_build_" ++ cfg.appName ++ "_") n = true →
        Event.removedDir (tmpRoot ++ [n]) ∈ (doInstall cfg env w).trace) := by
  refine ⟨?_, by decide, by decide, by decide, by decide, ?_⟩
  · intro app n pre post hn hpre
    simp only [findTempBuildDir, if_true]
    rw [List.find?_append]
    have hnone : pre.find? (fun m => strHasPre ("qp_build_" ++ app ++ "_") m) = none :=
      List.find?_eq_none.mpr (fun m hm => by simp [hpre m hm])
    rw [hnone]
    simp [List.find?_cons, hn]
  · exact doInstall_cleanup_removes

/-- C10 witness: discovery at a concrete colliding name list, via the
first conjunct of `C10_prefix_discovery_and_cleanup`. -/
theorem C10_prefix_discovery_and_cleanup_witness :
    findTempBuildDir (["other"] ++ "qp_build_app_extra_9" :: ["zzz"]) true "app"
      = some (tmpRoot ++ ["qp_build_app_extra_9"]) :=
  (C10_prefix_discovery_and_cleanup).1 "app" "qp_build_app_extra_9" ["other"] ["zzz"]
    (by decide) (by decide)

/-! ### Trace shapes of the uninstall steps -/

theorem stageAndRunScript_trace_shape (fs : FS) (cwd destDir script : Path)
    (exitOk : Bool) :
    ∀ e ∈ (stageAndRunScript fs cwd destDir script exitOk).1,
      (∃ a b, e = Event.copied a b) ∨ (∃ a b, e = Event.ranScript a b) := by
  intro e he
  simp only [stageAndRunScript] at he
  split_ifs at he
  · simp only [List.mem_singleton] at he
    subst he
    exact Or.inr ⟨_, _, rfl⟩
  · rcases List.mem_cons.mp he with h | h
    · subst h
      exact Or.inl ⟨_, _, rfl⟩
    · simp only [List.mem_singleton] at h
      subst h
      exact Or.inr ⟨_, _, rfl⟩
  · simp at he

theorem uninstallScriptStep_trace_shape (cfg : Config) (env : Env) (d : Path) (w : World) :
    ∀ e ∈ (uninstallScriptStep cfg env d w).trace,
      (∃ a b, e = Event.copied a b) ∨ (∃ a b, e = Event.ranScript a b) := by
  intro e he
  simp only [uninstallScriptStep] at he
  split_ifs at he
  · simp at he
  · exact stageAndRunScript_trace_shape _ _ _ _ _ e he

theorem teardownStep_trace_shape (cfg : Config) (w : World) :
    ∀ e ∈ (teardownStep cfg w).trace,
      (∃ a, e = Event.cmd a) ∨ (∃ p, e = Event.removedFile p) := by
  intro e he
  simp only [teardownStep] at he
  split_ifs at he
  · simp only [List.mem_cons, List.mem_singleton] at he
    rcases he with h | h | h | h
    · exact Or.inl ⟨_, h⟩
    · exact Or.inl ⟨_, h⟩
    · exact Or.inr ⟨_, h⟩
    · simp at h
      exact Or.inl ⟨_, h⟩
  · simp at he

theorem teardownStep_fatal (cfg : Config) (w : World) :
    (teardownStep cfg w).fatal = false := by
  by_cases h : cfg.systemd <;> simp [teardownStep, h]

theorem teardownStep_world (cfg : Config) (w : World) :
    (teardownStep cfg w).world = w := by
  by_cases h : cfg.systemd <;> simp [teardownStep, h]

/-- C3: uninstall removes the install root (`/opt/<appName>`)
unconditionally after the script step: with no uninstall script
configured, for every oracle — in particular whatever the
service-teardown commands do — the stage succeeds, ends with
`RemoveAll(installRoot)` and leaves a file system with the root erased;
in general the removal is recorded whenever the run completes, and any
script execution is ordered strictly before the removal. -/
theorem C3_uninstall_removes_root (cfg : Config) (env : Env) (w : World) :
    (cfg.uninstallScript = [] →
      (doUninstall cfg env w).fatal = false
      ∧ (doUninstall cfg env w).world.fs = removeAllFS w.fs (installRoot cfg.appName)
      ∧ (doUninstall cfg env w).trace.getLast?
          = some (Event.removedDir (installRoot cfg.appName)))
    ∧ ((doUninstall cfg env w).fatal = false →
        Event.removedDir (installRoot cfg.appName) ∈ (doUninstall cfg env w).trace)
    ∧ eventsOrdered isRanScript (isRemoveDirOf (installRoot cfg.appName))
        (doUninstall cfg env w).trace := by
  refine ⟨?_, ?_, ?_⟩
  · intro hu
    have hsf : (uninstallScriptStep cfg env (installRoot cfg.appName)
        (teardownStep cfg w).world).fatal = false := by
      simp [uninstallScriptStep, hu]
    simp only [doUninstall]
    rw [seqS_of_ok _ (teardownStep_fatal cfg w)]
    rw [seqS_of_ok _ hsf]
    simp [uninstallScriptStep, hu, teardownStep_world, List.getLast?_concat]
  · intro hf
    simp only [doUninstall] at hf ⊢
    obtain ⟨h1, hf⟩ := seqS_fatal_false hf
    obtain ⟨h2, _⟩ := seqS_fatal_false hf
    refine mem_seqS_right _ h1 ?_
    refine mem_seqS_right _ h2 ?_
    simp
  · simp only [doUninstall]
    apply eventsOrdered_seqS
    · intro e he
      rcases teardownStep_trace_shape cfg w e he with ⟨a, rfl⟩ | ⟨p, rfl⟩ <;> rfl
    · apply eventsOrdered_seqS
      · intro e he
        rcases uninstallScriptStep_trace_shape cfg env _ _ e he with
          ⟨a, b, rfl⟩ | ⟨a, b, rfl⟩ <;> rfl
      · apply eventsOrdered_of_no_p
        intro e he
        simp only [List.mem_singleton] at he
        subst he
        rfl

/-- C3 witness: the demo config with no uninstall script. -/
theorem C3_uninstall_removes_root_witness :
    (doUninstall cfgDemo { envOk with stopOk := false } wDemo).fatal = false
    ∧ (doUninstall cfgDemo { envOk with stopOk := false } wDemo).trace.getLast?
        = some (Event.removedDir (installRoot "demo")) :=
  ⟨((C3_uninstall_removes_root cfgDemo { envOk with stopOk := false } wDemo).1 rfl).1,
   ((C3_uninstall_removes_root cfgDemo { envOk with stopOk := false } wDemo).1 rfl).2.2⟩

/-- C2: provenance-aware placement. A `"cwd"` entry at relative path `p`
resolves to source `cwd ++ p` with base `cwd`; a `"build"` entry to
`buildDir ++ p` with base `buildDir`; `copyPreserveRelBase` re-roots
`base ++ p` at `destRoot ++ p` — so install places the file at
`installRoot/p` — carrying the source bytes (for whole trees: every file
below the source); and a source equal to the base itself (relative path
`"."`) maps to `destRoot/baseName`. -/
theorem C2_copy_preserves_relative_paths (fs : FS) (cwd b destRoot p : Path)
    (hp : p ≠ []) :
    resolveEntry cwd (some b) ⟨p, "cwd"⟩ = some (cwd ++ p, cwd)
    ∧ resolveEntry cwd (some b) ⟨p, "build"⟩ = some (b ++ p, b)
    ∧ (copyPreserveRelBase fs (cwd ++ p) cwd destRoot).2.1 = destRoot ++ p
    ∧ (copyPreserveRelBase fs (b ++ p) b destRoot).2.1 = destRoot ++ p
    ∧ (∀ r, (lookupFS fs (cwd ++ p ++ r)).isSome = true →
        lookupFS (copyPreserveRelBase fs (cwd ++ p) cwd destRoot).1 (destRoot ++ p ++ r)
          = lookupFS fs (cwd ++ p ++ r))
    ∧ (copyPreserveRelBase fs b b destRoot).2.1 = destRoot ++ [goBase b] := by
  refine ⟨by simp [resolveEntry], by simp [resolveEntry], ?_, ?_, ?_, ?_⟩
  · rw [copyPreserveRelBase_append fs cwd p destRoot hp]
  · rw [copyPreserveRelBase_append fs b p destRoot hp]
  · intro r hr
    rw [copyPreserveRelBase_append fs cwd p destRoot hp]
    have := lookupFS_cpCopy_under fs (cwd ++ p) (destRoot ++ p) r
    rw [List.append_assoc, List.append_assoc] at this ⊢
    rw [this]
    cases hcase : lookupFS fs (cwd ++ (p ++ r)) with
    | none =>
      rw [List.append_assoc] at hr
      rw [hcase] at hr
      simp at hr
    | some c => rfl
  · rw [copyPreserveRelBase_self fs b destRoot]

/-- C2 witness: the demo source file lands at `installRoot/bin/demo`
with its bytes. -/
theorem C2_copy_preserves_relative_paths_witness :
    (copyPreserveRelBase wDemo.fs (["home", "u", "proj"] ++ ["bin", "demo"])
        ["home", "u", "proj"] ["opt", "demo"]).2.1 = ["opt", "demo"] ++ ["bin", "demo"]
    ∧ lookupFS (copyPreserveRelBase wDemo.fs (["home", "u", "proj"] ++ ["bin", "demo"])
        ["home", "u", "proj"] ["opt", "demo"]).1 (["opt", "demo"] ++ ["bin", "demo"] ++ [])
      = lookupFS wDemo.fs (["home", "u", "proj"] ++ ["bin", "demo"] ++ []) :=
  ⟨(C2_copy_preserves_relative_paths wDemo.fs ["home", "u", "proj"] ["tmp", "b"]
      ["opt", "demo"] ["bin", "demo"] (by decide)).2.2.1,
   (C2_copy_preserves_relative_paths wDemo.fs ["home", "u", "proj"] ["tmp", "b"]
      ["opt", "demo"] ["bin", "demo"] (by decide)).2.2.2.2.1 [] (by decide)⟩

/-! ### The install-file loop without a staging directory -/

theorem existsPath_cpCopy_mono {fs : FS} {p : Path} (src dst : Path)
    (h : existsPath fs p = true) : existsPath (cpCopy fs src dst) p = true := by
  rw [existsPath_iff] at h ⊢
  obtain ⟨e, he, hp⟩ := h
  exact ⟨e, by simp [cpCopy, List.mem_append, he], hp⟩

theorem installFilesLoop_build_none_fatal (cwd d : Path) :
    ∀ (l : List FileEntry) (fs : FS), (∃ e ∈ l, e.from_ = "build") →
      (installFilesLoop cwd none d l fs).2.2 = true := by
  intro l
  induction l with
  | nil =>
    intro fs h
    simp at h
  | cons x rest ih =>
    intro fs hex
    by_cases hx : x.from_ = "build"
    · have hres : resolveEntry cwd none x = none := by
        simp [resolveEntry, hx]
      simp [installFilesLoop, hres]
    · have hex' : ∃ e ∈ rest, e.from_ = "build" := by
        rcases hex with ⟨e, he, hb⟩
        rcases List.mem_cons.mp he with rfl | he'
        · exact absurd hb hx
        · exact ⟨e, he', hb⟩
      cases hres : resolveEntry cwd none x with
      | none => simp [installFilesLoop, hres]
      | some sb =>
        obtain ⟨sp, bp⟩ := sb
        by_cases hg : (x.from_ = "cwd" ∧ x.file = [])
        · simp [installFilesLoop, hres, hg]
        · by_cases hee : existsPath fs sp = true
          · simp only [installFilesLoop, hres, hg, hee, if_true, if_false]
            simp only [copyPreserveRelBase]
            exact ih _ hex'
          · have hee' : existsPath fs sp = false := by simpa using hee
            simp [installFilesLoop, hres, hg, hee']

theorem installFilesLoop_cwd_ok (cwd d : Path) (bd : Option Path) :
    ∀ (l : List FileEntry) (fs : FS),
      (∀ e ∈ l, e.from_ = "cwd" ∧ e.file ≠ [] ∧ existsPath fs (cwd ++ e.file) = true) →
      (installFilesLoop cwd bd d l fs).2.2 = false
      ∧ ∀ e ∈ l, Event.copied (cwd ++ e.file) (d ++ e.file)
          ∈ (installFilesLoop cwd bd d l fs).1 := by
  intro l
  induction l with
  | nil =>
    intro fs _
    exact ⟨rfl, by simp [installFilesLoop]⟩
  | cons x rest ih =>
    intro fs h
    obtain ⟨hx, hxf, hxe⟩ := h x (List.mem_cons_self x rest)
    have hres : resolveEntry cwd bd x = some (cwd ++ x.file, cwd) := by
      simp [resolveEntry, hx]
    have hg : ¬ (x.from_ = "cwd" ∧ x.file = []) := fun hc => hxf hc.2
    have hcp := copyPreserveRelBase_append fs cwd x.file d hxf
    have hrest : ∀ e ∈ rest, e.from_ = "cwd" ∧ e.file ≠ [] ∧
        existsPath (cpCopy fs (cwd ++ x.file) (d ++ x.file)) (cwd ++ e.file) = true := by
      intro e he
      obtain ⟨h1, h2, h3⟩ := h e (List.mem_cons_of_mem _ he)
      exact ⟨h1, h2, existsPath_cpCopy_mono _ _ h3⟩
    obtain ⟨ihf, ihm⟩ := ih _ hrest
    refine ⟨?_, ?_⟩
    · simp only [installFilesLoop, hres, hg, hxe, if_true, if_false, hcp]
      exact ihf
    · intro e he
      rcases List.mem_cons.mp he with rfl | he'
      · simp only [installFilesLoop, hres, hg, hxe, if_true, if_false, hcp]
        simp
      · simp only [installFilesLoop, hres, hg, hxe, if_true, if_false, hcp]
        simp only [List.mem_append]
        exact Or.inr (ihm e he')

theorem preStopStep_off (cfg : Config) (env : Env) (w : World)
    (hsys : cfg.systemd = false) :
    preStopStep cfg env w = { trace := [], world := w, fatal := false } := by
  simp [preStopStep, hsys]

theorem installScriptStep_fatal_of_none (cfg : Config) (env : Env) (d : Path)
    (hisc : cfg.installScript = []) :
    ∀ w', (installScriptStep cfg env d w').fatal = false := by
  intro w'
  simp [installScriptStep, hisc]

theorem systemdInstallStep_fatal_of_off (cfg : Config) (env : Env)
    (hsys : cfg.systemd = false) :
    ∀ w', (systemdInstallStep cfg env w').fatal = false := by
  intro w'
  simp [systemdInstallStep, hsys]

theorem cleanupStep_fatal (cfg : Config) (env : Env) :
    ∀ w', (cleanupStep cfg env w').fatal = false := by
  intro w'
  simp only [cleanupStep]
  split_ifs <;> rfl

/-- C8: when no staging directory is discoverable, the stage tolerates
it; it becomes fatal exactly when some entry has `"build"` provenance,
while all-`"cwd"` configs (existing sources, no service, no install
script) install successfully, every entry copied into the root. -/
theorem C8_missing_build_dir (cfg : Config) (env : Env) (w : World)
    (hfind : findTempBuildDir w.tempNames env.tempReadOk cfg.appName = none) :
    ((∃ e ∈ cfg.installFiles, e.from_ = "build") →
        (doInstall cfg env w).fatal = true)
    ∧ (cfg.systemd = false → cfg.installScript = [] → env.mkdirOk = true →
       (∀ e ∈ cfg.installFiles, e.from_ = "cwd" ∧ e.file ≠ []
          ∧ existsPath w.fs (env.cwd ++ e.file) = true) →
       (doInstall cfg env w).fatal = false
       ∧ ∀ e ∈ cfg.installFiles,
           Event.copied (env.cwd ++ e.file) (installRoot cfg.appName ++ e.file)
             ∈ (doInstall cfg env w).trace) := by
  constructor
  · intro hbuild
    have h3 : (installFilesStep cfg env (installRoot cfg.appName) w).fatal = true := by
      simp only [installFilesStep, hfind]
      exact installFilesLoop_build_none_fatal _ _ _ _ hbuild
    simp only [doInstall, seqS_fatal, preStopStep_world, mkdirInstallStep_world]
    simp [h3]
  · intro hsys hisc hmk hall
    have h1 := preStopStep_off cfg env w hsys
    have h2f : (mkdirInstallStep env (installRoot cfg.appName) w).fatal = false := by
      simp [mkdirInstallStep, hmk]
    have hloop := installFilesLoop_cwd_ok env.cwd (installRoot cfg.appName)
      (findTempBuildDir w.tempNames env.tempReadOk cfg.appName) cfg.installFiles w.fs hall
    have h3f : (installFilesStep cfg env (installRoot cfg.appName) w).fatal = false := by
      simp only [installFilesStep]
      exact hloop.1
    constructor
    · simp only [doInstall, seqS_fatal, preStopStep_world, mkdirInstallStep_world]
      simp [h1, h2f, h3f, installScriptStep_fatal_of_none cfg env _ hisc,
        systemdInstallStep_fatal_of_off cfg env hsys, cleanupStep_fatal cfg env]
    · intro e he
      simp only [doInstall]
      refine mem_seqS_right _ (by rw [h1]) ?_
      rw [h1]
      refine mem_seqS_right _ h2f ?_
      rw [mkdirInstallStep_world]
      refine mem_seqS_left _ ?_
      simp only [installFilesStep]
      exact hloop.2 e he

/-- C8 witness: the demo entry installs with no staging directory. -/
theorem C8_missing_build_dir_witness :
    (doInstall { cfgDemo with systemd := false } envOk wDemo).fatal = false :=
  ((C8_missing_build_dir { cfgDemo with systemd := false } envOk wDemo (by decide)).2
    rfl rfl rfl (by decide)).1

/-! ### Trace shapes of the install steps -/

theorem mem_of_mem_seqS {e : Event} {r : StepR} {k : World → StepR}
    (h : e ∈ (seqS r k).trace) : e ∈ r.trace ∨ e ∈ (k r.world).trace := by
  by_cases hf : r.fatal
  · rw [seqS_of_fatal k hf] at h
    exact Or.inl h
  · rw [seqS_of_ok k (by simpa using hf)] at h
    exact List.mem_append.mp h

theorem preStopStep_trace_shape (cfg : Config) (env : Env) (w : World) :
    ∀ e ∈ (preStopStep cfg env w).trace,
      e = Event.cmd ["systemctl", "is-active", "--quiet",
            (UnitFromConfig cfg).UnitNameWildcard]
      ∨ e = Event.cmd ["systemctl", "stop", (UnitFromConfig cfg).UnitNameWildcard] := by
  intro e he
  simp only [preStopStep] at he
  split_ifs at he
  · rcases List.mem_cons.mp he with h | h
    · exact Or.inl h
    · rcases List.mem_cons.mp h with h | h
      · exact Or.inr h
      · exact Or.inl (List.eq_of_mem_replicate h)
  · rcases List.mem_cons.mp he with h | h
    · exact Or.inl h
    · simp only [List.mem_singleton] at h
      exact Or.inr h
  · simp only [List.mem_singleton] at he
    exact Or.inl he
  · simp at he

theorem installFilesLoop_trace_shape (cwd : Path) (bd : Option Path) (d : Path) :
    ∀ (l : List FileEntry) (fs : FS), ∀ e ∈ (installFilesLoop cwd bd d l fs).1,
      (∃ p, e = Event.mkdirAll p) ∨ (∃ a b, e = Event.copied a b) := by
  intro l
  induction l with
  | nil =>
    intro fs e he
    simp [installFilesLoop] at he
  | cons x rest ih =>
    intro fs e he
    cases hres : resolveEntry cwd bd x with
    | none =>
      simp [installFilesLoop, hres] at he
    | some sb =>
      obtain ⟨sp, bp⟩ := sb
      simp only [installFilesLoop, hres] at he
      by_cases hg : (x.from_ = "cwd" ∧ x.file = [])
      · rw [if_pos hg] at he
        simp at he
      · rw [if_neg hg] at he
        by_cases hee : existsPath fs sp = true
        · rw [if_pos hee] at he
          simp only [copyPreserveRelBase] at he
          rcases List.mem_append.mp he with h | h
          · rcases List.mem_cons.mp h with h | h
            · exact Or.inl ⟨_, h⟩
            · simp only [List.mem_singleton] at h
              exact Or.inr ⟨_, _, h⟩
          · exact ih _ e h
        · rw [if_neg hee] at he
          simp at he

theorem installScriptStep_trace_shape (cfg : Config) (env : Env) (d : Path) (w : World) :
    ∀ e ∈ (installScriptStep cfg env d w).trace,
      (∃ a b, e = Event.copied a b) ∨ (∃ a b, e = Event.ranScript a b) := by
  intro e he
  simp only [installScriptStep] at he
  split_ifs at he
  · simp at he
  · exact stageAndRunScript_trace_shape _ _ _ _ _ e he

theorem installSystemdUnit_trace_shape (cfg : Config) (env : Env) (w : World) :
    ∀ e ∈ (installSystemdUnit cfg env w).trace,
      (∃ p, e = Event.wroteUnit p)
      ∨ e = Event.cmd ["systemctl", "daemon-reload"]
      ∨ e = Event.cmd ["systemctl", "enable", "--now",
            (UnitFromConfig cfg).UnitNameWildcard] := by
  intro e he
  simp only [installSystemdUnit] at he
  split_ifs at he
  · simp at he
  · rcases List.mem_cons.mp he with h | h
    · exact Or.inl ⟨_, h⟩
    · simp only [List.mem_singleton] at h
      exact Or.inr (Or.inl h)
  · rcases List.mem_cons.mp he with h | h
    · exact Or.inl ⟨_, h⟩
    · rcases List.mem_cons.mp h with h | h
      · exact Or.inr (Or.inl h)
      · simp only [List.mem_singleton] at h
        exact Or.inr (Or.inr h)

theorem systemdInstallStep_trace_shape (cfg : Config) (env : Env) (w : World) :
    ∀ e ∈ (systemdInstallStep cfg env w).trace,
      (∃ p, e = Event.wroteUnit p)
      ∨ e = Event.cmd ["systemctl", "daemon-reload"]
      ∨ e = Event.cmd ["systemctl", "enable", "--now",
            (UnitFromConfig cfg).UnitNameWildcard]
      ∨ e = Event.cmd ["systemctl", "start", (UnitFromConfig cfg).UnitNameWildcard] := by
  intro e he
  simp only [systemdInstallStep] at he
  split_ifs at he
  · rcases mem_of_mem_seqS he with h | h
    · rcases installSystemdUnit_trace_shape cfg env w e h with h' | h' | h'
      · exact Or.inl h'
      · exact Or.inr (Or.inl h')
      · exact Or.inr (Or.inr (Or.inl h'))
    · simp only [startServiceStep, List.mem_singleton] at h
      exact Or.inr (Or.inr (Or.inr h))
  · simp at he

theorem cleanupLoop_trace_shape (pfx : String) :
    ∀ (names : List String) (fs : FS), ∀ e ∈ (cleanupLoop pfx names fs).1,
      ∃ p, e = Event.removedDir p := by
  intro names
  induction names with
  | nil =>
    intro fs e he
    simp [cleanupLoop] at he
  | cons m rest ih =>
    intro fs e he
    by_cases hm : strHasPre pfx m = true
    · simp only [cleanupLoop, hm, if_true] at he
      rcases List.mem_cons.mp he with h | h
      · exact ⟨_, h⟩
      · exact ih _ e h
    · have hm' : strHasPre pfx m = false := by simpa using hm
      simp only [cleanupLoop, hm', if_false] at he
      exact ih _ e he

theorem cleanupStep_trace_shape (cfg : Config) (env : Env) (w : World) :
    ∀ e ∈ (cleanupStep cfg env w).trace, ∃ p, e = Event.removedDir p := by
  intro e he
  simp only [cleanupStep] at he
  split_ifs at he
  · exact cleanupLoop_trace_shape _ _ _ e he
  · simp at he

/-- C6: for a service-managed install, every `systemctl stop` precedes
every mutation of the install root, and every file placement or script
run inside the root precedes every unit write / `enable` / `start` — so
any active instance is stopped before the root is touched, and the
service is (re)started only once the new version is fully in place. -/
theorem C6_stop_replace_start_order (cfg : Config) (env : Env) (w : World)
    (_hs : cfg.systemd = true) :
    eventsOrdered isStopCmd (mutatesRoot (installRoot cfg.appName))
      (doInstall cfg env w).trace
    ∧ eventsOrdered (placesFiles (installRoot cfg.appName)) isActivation
      (doInstall cfg env w).trace := by
  constructor
  · simp only [doInstall]
    apply eventsOrdered_seqS
    · intro e he
      rcases preStopStep_trace_shape cfg env w e he with rfl | rfl <;> rfl
    · apply eventsOrdered_of_no_p
      apply seqS_trace_all
      · intro e he
        simp only [mkdirInstallStep, List.mem_singleton] at he
        subst he
        rfl
      · apply seqS_trace_all
        · intro e he
          simp only [installFilesStep] at he
          rcases installFilesLoop_trace_shape _ _ _ _ _ e he with ⟨p, rfl⟩ | ⟨a, b, rfl⟩ <;> rfl
        · apply seqS_trace_all
          · intro e he
            rcases installScriptStep_trace_shape _ _ _ _ e he with ⟨a, b, rfl⟩ | ⟨a, b, rfl⟩ <;> rfl
          · apply seqS_trace_all
            · intro e he
              rcases systemdInstallStep_trace_shape _ _ _ e he with
                ⟨p, rfl⟩ | rfl | rfl | rfl <;> rfl
            · intro e he
              rcases cleanupStep_trace_shape _ _ _ e he with ⟨p, rfl⟩
              rfl
  · simp only [doInstall]
    apply eventsOrdered_seqS
    · intro e he
      rcases preStopStep_trace_shape cfg env w e he with rfl | rfl <;> rfl
    · apply eventsOrdered_seqS
      · intro e he
        simp only [mkdirInstallStep, List.mem_singleton] at he
        subst he
        rfl
      · apply eventsOrdered_seqS
        · intro e he
          simp only [installFilesStep] at he
          rcases installFilesLoop_trace_shape _ _ _ _ _ e he with ⟨p, rfl⟩ | ⟨a, b, rfl⟩ <;> rfl
        · apply eventsOrdered_seqS
          · intro e he
            rcases installScriptStep_trace_shape _ _ _ _ e he with ⟨a, b, rfl⟩ | ⟨a, b, rfl⟩ <;> rfl
          · apply eventsOrdered_of_no_p
            apply seqS_trace_all
            · intro e he
              rcases systemdInstallStep_trace_shape _ _ _ e he with
                ⟨p, rfl⟩ | rfl | rfl | rfl <;> rfl
            · intro e he
              rcases cleanupStep_trace_shape _ _ _ e he with ⟨p, rfl⟩
              rfl

/-- C6 witness: the ordering at the concrete demo install. -/
theorem C6_stop_replace_start_order_witness :
    eventsOrdered isStopCmd (mutatesRoot (installRoot "demo"))
      (doInstall cfgDemo envOk wDemo).trace
    ∧ eventsOrdered (placesFiles (installRoot "demo")) isActivation
      (doInstall cfgDemo envOk wDemo).trace :=
  C6_stop_replace_start_order cfgDemo envOk wDemo rfl

/-! ### Utilities for the idempotence analysis -/

theorem strHasPre_append (p s : String) : strHasPre p (p ++ s) = true := by
  simp only [strHasPre, String.data_append]
  exact List.isPrefixOf_iff_prefix.mpr ⟨s.data, rfl⟩

theorem not_prefix_of_append {a c : Path} (h₁ : ¬ a <+: c) (h₂ : ¬ c <+: a)
    (r : Path) : ¬ a <+: c ++ r := by
  intro h
  rcases List.prefix_or_prefix_of_prefix h (List.prefix_append c r) with h' | h'
  · exact h₁ h'
  · exact h₂ h'

theorem not_prefix_append_left {a q : Path} (sub : Path) (h : ¬ a <+: q) :
    ¬ (a ++ sub) <+: q :=
  fun hc => h ((List.prefix_append a sub).trans hc)

theorem tmp_installRoot_disj (app : String) :
    ¬ tmpRoot <+: installRoot app ∧ ¬ installRoot app <+: tmpRoot := by
  constructor <;> intro h <;>
    simp [tmpRoot, installRoot, List.cons_prefix_cons] at h

theorem lookupFS_none_of_clean {fs : FS} {a : Path}
    (h : ∀ e ∈ fs, ¬ a <+: e.1) {q : Path} (hq : a <+: q) :
    lookupFS fs q = none := by
  cases hl : lookupFS fs q with
  | none => rfl
  | some c =>
    have : (lookupFS fs q).isSome = true := by rw [hl]; rfl
    obtain ⟨e, he, hk⟩ := (lookupFS_isSome_iff fs q).mp this
    exact absurd (hk ▸ hq) (h e he)

theorem existsPath_iff_lookup (fs : FS) (p : Path) :
    existsPath fs p = true ↔ ∃ r, (lookupFS fs (p ++ r)).isSome = true := by
  rw [existsPath_iff]
  constructor
  · rintro ⟨e, he, r, hr⟩
    exact ⟨r, (lookupFS_isSome_iff fs _).mpr ⟨e, he, hr.symm⟩⟩
  · rintro ⟨r, hr⟩
    obtain ⟨e, he, hk⟩ := (lookupFS_isSome_iff fs _).mp hr
    exact ⟨e, he, ⟨r, hk.symm⟩⟩

/-- Existence checks agree between two file systems whose subtree views
at `p₁` and `p₂` agree. -/
theorem existsPath_eq_of_views {fs₁ fs₂ : FS} {p₁ p₂ : Path}
    (h : ∀ r, lookupFS fs₁ (p₁ ++ r) = lookupFS fs₂ (p₂ ++ r)) :
    existsPath fs₁ p₁ = existsPath fs₂ p₂ := by
  by_cases h₁ : existsPath fs₁ p₁ = true
  · obtain ⟨r, hr⟩ := (existsPath_iff_lookup fs₁ p₁).mp h₁
    rw [h₁]
    exact ((existsPath_iff_lookup fs₂ p₂).mpr ⟨r, by rw [← h r]; exact hr⟩).symm
  · have h₁' : existsPath fs₁ p₁ = false := by simpa using h₁
    rw [h₁']
    by_cases h₂ : existsPath fs₂ p₂ = true
    · obtain ⟨r, hr⟩ := (existsPath_iff_lookup fs₂ p₂).mp h₂
      exact absurd ((existsPath_iff_lookup fs₁ p₁).mpr ⟨r, by rw [h r]; exact hr⟩)
        (by simp [h₁'])
    · simp [Bool.eq_false_iff.mpr h₂]

theorem copyPreserveRelBase_dst_prefix (fs : FS) (src base dstRoot : Path) :
    dstRoot <+: (copyPreserveRelBase fs src base dstRoot).2.1 := by
  simp only [copyPreserveRelBase]
  exact List.prefix_append _ _

theorem lookupFS_copyPreserveRelBase_not {dstRoot q : Path} (fs : FS)
    (src base : Path) (h : ¬ dstRoot <+: q) :
    lookupFS (copyPreserveRelBase fs src base dstRoot).1 q = lookupFS fs q := by
  simp only [copyPreserveRelBase]
  apply lookupFS_cpCopy_not
  intro hc
  exact h ((List.prefix_append dstRoot _).trans hc)

/-! ### Localization: each phase touches only its own subtree -/

theorem buildFilesLoop_lookup_not (cwd buildDir : Path) :
    ∀ (pats : List Path) (fs : FS) (q : Path), ¬ buildDir <+: q →
      lookupFS (buildFilesLoop cwd buildDir pats fs).2 q = lookupFS fs q := by
  intro pats
  induction pats with
  | nil =>
    intro fs q _
    rfl
  | cons pat rest ih =>
    intro fs q hq
    by_cases hex : existsPath fs (cwd ++ pat) = true
    · simp only [buildFilesLoop, hex, if_true]
      rw [ih _ q hq]
      exact lookupFS_copyPreserveRelBase_not fs _ _ hq
    · have hex' : existsPath fs (cwd ++ pat) = false := by simpa using hex
      simp only [buildFilesLoop, hex', if_false]
      exact ih _ q hq

theorem stageAndRunScript_lookup_not {destDir q : Path} (fs : FS) (cwd script : Path)
    (ok : Bool) (h : ¬ destDir <+: q) :
    lookupFS (stageAndRunScript fs cwd destDir script ok).2.1 q = lookupFS fs q := by
  simp only [stageAndRunScript]
  split_ifs
  · rfl
  · apply lookupFS_cpCopy_not
    exact not_prefix_append_left _ h
  · rfl

theorem installFilesLoop_lookup_not (cwd : Path) (bd : Option Path) (d : Path) :
    ∀ (l : List FileEntry) (fs : FS) (q : Path), ¬ d <+: q →
      lookupFS (installFilesLoop cwd bd d l fs).2.1 q = lookupFS fs q := by
  intro l
  induction l with
  | nil =>
    intro fs q _
    rfl
  | cons x rest ih =>
    intro fs q hq
    cases hres : resolveEntry cwd bd x with
    | none => simp [installFilesLoop, hres]
    | some sb =>
      obtain ⟨sp, bp⟩ := sb
      simp only [installFilesLoop, hres]
      by_cases hg : (x.from_ = "cwd" ∧ x.file = [])
      · rw [if_pos hg]
      · rw [if_neg hg]
        by_cases hee : existsPath fs sp = true
        · rw [if_pos hee]
          simp only
          rw [ih _ q hq]
          exact lookupFS_copyPreserveRelBase_not fs _ _ hq
        · rw [if_neg hee]

theorem cleanupLoop_lookup_not {q : Path} (pfx : String) (hq : ¬ tmpRoot <+: q) :
    ∀ (names : List String) (fs : FS),
      lookupFS (cleanupLoop pfx names fs).2 q = lookupFS fs q := by
  intro names
  induction names with
  | nil =>
    intro fs
    rfl
  | cons m rest ih =>
    intro fs
    by_cases hm : strHasPre pfx m = true
    · simp only [cleanupLoop, hm, if_true]
      rw [ih]
      rw [lookupFS_removeAllFS]
      rw [if_neg]
      exact not_prefix_append_left _ hq
    · have hm' : strHasPre pfx m = false := by simpa using hm
      simp only [cleanupLoop, hm', if_false]
      exact ih fs

theorem cleanupLoop_lookup_none (pfx : String) {q : Path} :
    ∀ (names : List String) (fs : FS), lookupFS fs q = none →
      lookupFS (cleanupLoop pfx names fs).2 q = none := by
  intro names
  induction names with
  | nil =>
    intro fs h
    exact h
  | cons m rest ih =>
    intro fs h
    by_cases hm : strHasPre pfx m = true
    · simp only [cleanupLoop, hm, if_true]
      apply ih
      rw [lookupFS_removeAllFS]
      split_ifs <;> simp [h]
    · have hm' : strHasPre pfx m = false := by simpa using hm
      simp only [cleanupLoop, hm', if_false]
      exact ih fs h

theorem cleanupLoop_removes_subtree {pfx n : String} {q : Path}
    (hpre : strHasPre pfx n = true) (hq : (tmpRoot ++ [n]) <+: q) :
    ∀ (names : List String) (fs : FS), n ∈ names →
      lookupFS (cleanupLoop pfx names fs).2 q = none := by
  intro names
  induction names with
  | nil =>
    intro fs h
    simp at h
  | cons m rest ih =>
    intro fs hmem
    rcases List.mem_cons.mp hmem with rfl | hmem'
    · simp only [cleanupLoop, hpre, if_true]
      apply cleanupLoop_lookup_none
      rw [lookupFS_removeAllFS, if_pos hq]
    · by_cases hm : strHasPre pfx m = true
      · simp only [cleanupLoop, hm, if_true]
        exact ih _ hmem'
      · have hm' : strHasPre pfx m = false := by simpa using hm
        simp only [cleanupLoop, hm', if_false]
        exact ih _ hmem'

/-! ### Parallel runs: equal sources give equal build trees -/

theorem cpCopy_subtree_views {fs₁ fs₂ : FS} {b₁ b₂ s₁ s₂ : Path} (rel : Path)
    (hb : ∀ r, lookupFS fs₁ (b₁ ++ r) = lookupFS fs₂ (b₂ ++ r))
    (hsv : ∀ r, lookupFS fs₁ (s₁ ++ r) = lookupFS fs₂ (s₂ ++ r)) :
    ∀ r, lookupFS (cpCopy fs₁ s₁ (b₁ ++ rel)) (b₁ ++ r)
      = lookupFS (cpCopy fs₂ s₂ (b₂ ++ rel)) (b₂ ++ r) := by
  intro r
  by_cases hrel : rel <+: r
  · obtain ⟨t, rfl⟩ := hrel
    have e₁ : b₁ ++ (rel ++ t) = (b₁ ++ rel) ++ t := by simp [List.append_assoc]
    have e₂ : b₂ ++ (rel ++ t) = (b₂ ++ rel) ++ t := by simp [List.append_assoc]
    rw [e₁, e₂, lookupFS_cpCopy_under, lookupFS_cpCopy_under]
    rw [hsv t]
    rw [show lookupFS fs₁ ((b₁ ++ rel) ++ t) = lookupFS fs₂ ((b₂ ++ rel) ++ t) from by
      rw [← e₁, ← e₂]
      exact hb (rel ++ t)]
  · have h₁ : ¬ (b₁ ++ rel) <+: (b₁ ++ r) := by
      rw [List.prefix_append_right_inj]
      exact hrel
    have h₂ : ¬ (b₂ ++ rel) <+: (b₂ ++ r) := by
      rw [List.prefix_append_right_inj]
      exact hrel
    rw [lookupFS_cpCopy_not fs₁ s₁ h₁, lookupFS_cpCopy_not fs₂ s₂ h₂]
    exact hb r

theorem buildFilesLoop_views (cwd : Path) :
    ∀ (pats : List Path) (fs₁ fs₂ : FS) (b₁ b₂ : Path),
      (∀ r, lookupFS fs₁ (cwd ++ r) = lookupFS fs₂ (cwd ++ r)) →
      (∀ r, lookupFS fs₁ (b₁ ++ r) = lookupFS fs₂ (b₂ ++ r)) →
      (¬ b₁ <+: cwd) → (¬ cwd <+: b₁) → (¬ b₂ <+: cwd) → (¬ cwd <+: b₂) →
      ∀ r, lookupFS (buildFilesLoop cwd b₁ pats fs₁).2 (b₁ ++ r)
        = lookupFS (buildFilesLoop cwd b₂ pats fs₂).2 (b₂ ++ r) := by
  intro pats
  induction pats with
  | nil =>
    intro fs₁ fs₂ b₁ b₂ _ hb _ _ _ _ r
    exact hb r
  | cons pat rest ih =>
    intro fs₁ fs₂ b₁ b₂ hcw hb d₁ d₂ d₃ d₄ r
    have hex : existsPath fs₁ (cwd ++ pat) = existsPath fs₂ (cwd ++ pat) := by
      apply existsPath_eq_of_views
      intro t
      simpa only [List.append_assoc] using hcw (pat ++ t)
    by_cases he : existsPath fs₁ (cwd ++ pat) = true
    · have he₂ : existsPath fs₂ (cwd ++ pat) = true := by rw [← hex]; exact he
      simp only [buildFilesLoop, he, he₂, if_true, copyPreserveRelBase, goRel_append]
      have hnp₁ : ∀ t : Path, ¬ b₁ <+: cwd ++ t := fun t => not_prefix_of_append d₁ d₂ t
      have hnp₂ : ∀ t : Path, ¬ b₂ <+: cwd ++ t := fun t => not_prefix_of_append d₃ d₄ t
      apply ih
      · intro t
        rw [lookupFS_cpCopy_not fs₁ (cwd ++ pat) (not_prefix_append_left _ (hnp₁ t)),
          lookupFS_cpCopy_not fs₂ (cwd ++ pat) (not_prefix_append_left _ (hnp₂ t))]
        exact hcw t
      · exact cpCopy_subtree_views _ hb (fun t => by
          simpa only [List.append_assoc] using hcw (pat ++ t))
      · exact d₁
      · exact d₂
      · exact d₃
      · exact d₄
    · have he' : existsPath fs₁ (cwd ++ pat) = false := by simpa using he
      have he₂' : existsPath fs₂ (cwd ++ pat) = false := by rw [← hex]; exact he'
      simp only [buildFilesLoop, he', he₂', if_false]
      exact ih fs₁ fs₂ b₁ b₂ hcw hb d₁ d₂ d₃ d₄ r

theorem stageAndRunScript_views {fs₁ fs₂ : FS} {cwd b₁ b₂ : Path} (script : Path)
    (ok₁ ok₂ : Bool)
    (hcw : ∀ r, lookupFS fs₁ (cwd ++ r) = lookupFS fs₂ (cwd ++ r))
    (hb : ∀ r, lookupFS fs₁ (b₁ ++ r) = lookupFS fs₂ (b₂ ++ r)) :
    ∀ r, lookupFS (stageAndRunScript fs₁ cwd b₁ script ok₁).2.1 (b₁ ++ r)
      = lookupFS (stageAndRunScript fs₂ cwd b₂ script ok₂).2.1 (b₂ ++ r) := by
  intro r
  have hpres : existsPath fs₁ (b₁ ++ [goBase script])
      = existsPath fs₂ (b₂ ++ [goBase script]) := by
    apply existsPath_eq_of_views
    intro t
    simpa only [List.append_assoc] using hb ([goBase script] ++ t)
  by_cases hp : existsPath fs₁ (b₁ ++ [goBase script]) = true
  · have hp₂ : existsPath fs₂ (b₂ ++ [goBase script]) = true := by rw [← hpres]; exact hp
    simp only [stageAndRunScript, hp, hp₂, if_true]
    exact hb r
  · have hp' : existsPath fs₁ (b₁ ++ [goBase script]) = false := by simpa using hp
    have hp₂' : existsPath fs₂ (b₂ ++ [goBase script]) = false := by rw [← hpres]; exact hp'
    have hsrc : existsPath fs₁ (cwd ++ ".qp" :: script)
        = existsPath fs₂ (cwd ++ ".qp" :: script) := by
      apply existsPath_eq_of_views
      intro t
      simpa only [List.append_assoc] using hcw (".qp" :: script ++ t)
    by_cases hq : existsPath fs₁ (cwd ++ ".qp" :: script) = true
    · have hq₂ : existsPath fs₂ (cwd ++ ".qp" :: script) = true := by rw [← hsrc]; exact hq
      simp only [stageAndRunScript, hp', hp₂', hq, hq₂, if_true, if_false]
      exact cpCopy_subtree_views _ hb (fun t => by
        simpa only [List.append_assoc] using hcw (".qp" :: script ++ t)) r
    · have hq' : existsPath fs₁ (cwd ++ ".qp" :: script) = false := by simpa using hq
      have hq₂' : existsPath fs₂ (cwd ++ ".qp" :: script) = false := by rw [← hsrc]; exact hq'
      simp only [stageAndRunScript, hp', hp₂', hq', hq₂', if_false]
      exact hb r

/-- Pointwise effect of one copy, compared across two runs with equal
source views: each location is either written with the same defined
content in both, or left unchanged in both. -/
theorem cpCopy_pointwise_views {fs₁ fs₂ : FS} {s₁ s₂ d : Path}
    (hsv : ∀ t, lookupFS fs₁ (s₁ ++ t) = lookupFS fs₂ (s₂ ++ t)) (q : Path) :
    ((lookupFS (cpCopy fs₁ s₁ d) q = lookupFS (cpCopy fs₂ s₂ d) q)
      ∧ ((lookupFS (cpCopy fs₁ s₁ d) q).isSome = true))
    ∨ ((lookupFS (cpCopy fs₁ s₁ d) q = lookupFS fs₁ q)
      ∧ (lookupFS (cpCopy fs₂ s₂ d) q = lookupFS fs₂ q)) := by
  by_cases hdq : d <+: q
  · obtain ⟨t, rfl⟩ := hdq
    rw [lookupFS_cpCopy_under, lookupFS_cpCopy_under]
    cases hv : lookupFS fs₁ (s₁ ++ t) with
    | some c =>
      have hv₂ : lookupFS fs₂ (s₂ ++ t) = some c := by rw [← hsv t]; exact hv
      rw [hv₂]
      exact Or.inl ⟨rfl, rfl⟩
    | none =>
      have hv₂ : lookupFS fs₂ (s₂ ++ t) = none := by rw [← hsv t]; exact hv
      rw [hv₂]
      exact Or.inr ⟨rfl, rfl⟩
  · rw [lookupFS_cpCopy_not _ _ hdq, lookupFS_cpCopy_not _ _ hdq]
    exact Or.inr ⟨rfl, rfl⟩

/-- The parallel install-file loop: with equal working-tree views, equal
staging-tree views, and no empty entry paths, the two runs abort
identically, and each install-root location is either written with the
same defined content in both runs or untouched in both. -/
theorem installFilesLoop_views (cwd root b₁ b₂ : Path)
    (dr₁ : ¬ root <+: cwd) (dr₂ : ¬ cwd <+: root)
    (db₁ : ¬ root <+: b₁) (db₁' : ¬ b₁ <+: root)
    (db₂ : ¬ root <+: b₂) (db₂' : ¬ b₂ <+: root) :
    ∀ (l : List FileEntry) (fs₁ fs₂ : FS),
      (∀ e ∈ l, e.file ≠ []) →
      (∀ r, lookupFS fs₁ (cwd ++ r) = lookupFS fs₂ (cwd ++ r)) →
      (∀ r, lookupFS fs₁ (b₁ ++ r) = lookupFS fs₂ (b₂ ++ r)) →
      (installFilesLoop cwd (some b₁) root l fs₁).2.2
        = (installFilesLoop cwd (some b₂) root l fs₂).2.2
      ∧ ∀ q, root <+: q →
          ((lookupFS (installFilesLoop cwd (some b₁) root l fs₁).2.1 q
              = lookupFS (installFilesLoop cwd (some b₂) root l fs₂).2.1 q)
            ∧ (lookupFS (installFilesLoop cwd (some b₁) root l fs₁).2.1 q).isSome = true)
          ∨ ((lookupFS (installFilesLoop cwd (some b₁) root l fs₁).2.1 q = lookupFS fs₁ q)
            ∧ (lookupFS (installFilesLoop cwd (some b₂) root l fs₂).2.1 q
                = lookupFS fs₂ q)) := by
  intro l
  induction l with
  | nil =>
    intro fs₁ fs₂ _ _ _
    exact ⟨rfl, fun q _ => Or.inr ⟨rfl, rfl⟩⟩
  | cons x rest ih =>
    intro fs₁ fs₂ hne hcw hb
    have hnex : x.file ≠ [] := hne x (List.mem_cons_self x rest)
    have hner : ∀ e ∈ rest, e.file ≠ [] := fun e he => hne e (List.mem_cons_of_mem _ he)
    have hnp₁ : ∀ t : Path, ¬ (root ++ x.file) <+: cwd ++ t := fun t =>
      not_prefix_append_left _ (not_prefix_of_append dr₁ dr₂ t)
    have hnpb₁ : ∀ t : Path, ¬ (root ++ x.file) <+: b₁ ++ t := fun t =>
      not_prefix_append_left _ (not_prefix_of_append db₁ db₁' t)
    have hnpb₂ : ∀ t : Path, ¬ (root ++ x.file) <+: b₂ ++ t := fun t =>
      not_prefix_append_left _ (not_prefix_of_append db₂ db₂' t)
    by_cases hx : x.from_ = "cwd"
    · have hres₁ : resolveEntry cwd (some b₁) x = some (cwd ++ x.file, cwd) := by
        simp [resolveEntry, hx]
      have hres₂ : resolveEntry cwd (some b₂) x = some (cwd ++ x.file, cwd) := by
        simp [resolveEntry, hx]
      have hg : ¬ (x.from_ = "cwd" ∧ x.file = []) := fun hc => hnex hc.2
      have hexq : existsPath fs₁ (cwd ++ x.file) = existsPath fs₂ (cwd ++ x.file) := by
        apply existsPath_eq_of_views
        intro t
        simpa only [List.append_assoc] using hcw (x.file ++ t)
      have hsv : ∀ t, lookupFS fs₁ ((cwd ++ x.file) ++ t)
          = lookupFS fs₂ ((cwd ++ x.file) ++ t) := by
        intro t
        simpa only [List.append_assoc] using hcw (x.file ++ t)
      by_cases hex : existsPath fs₁ (cwd ++ x.file) = true
      · have hex₂ : existsPath fs₂ (cwd ++ x.file) = true := by rw [← hexq]; exact hex
        have hcp₁ := copyPreserveRelBase_append fs₁ cwd x.file root hnex
        have hcp₂ := copyPreserveRelBase_append fs₂ cwd x.file root hnex
        simp only [installFilesLoop, hres₁, hres₂, if_neg hg, if_pos hex, if_pos hex₂,
          hcp₁, hcp₂]
        have hcw' : ∀ t, lookupFS (cpCopy fs₁ (cwd ++ x.file) (root ++ x.file)) (cwd ++ t)
            = lookupFS (cpCopy fs₂ (cwd ++ x.file) (root ++ x.file)) (cwd ++ t) := by
          intro t
          rw [lookupFS_cpCopy_not _ _ (hnp₁ t), lookupFS_cpCopy_not _ _ (hnp₁ t)]
          exact hcw t
        have hb' : ∀ t, lookupFS (cpCopy fs₁ (cwd ++ x.file) (root ++ x.file)) (b₁ ++ t)
            = lookupFS (cpCopy fs₂ (cwd ++ x.file) (root ++ x.file)) (b₂ ++ t) := by
          intro t
          rw [lookupFS_cpCopy_not _ _ (hnpb₁ t), lookupFS_cpCopy_not _ _ (hnpb₂ t)]
          exact hb t
        obtain ⟨ihf, ihq⟩ := ih _ _ hner hcw' hb'
        refine ⟨ihf, ?_⟩
        intro q hq
        rcases ihq q hq with ⟨heq, hsome⟩ | ⟨hu₁, hu₂⟩
        · exact Or.inl ⟨heq, hsome⟩
        · rw [hu₁, hu₂]
          exact cpCopy_pointwise_views hsv q
      · have hex' : existsPath fs₁ (cwd ++ x.file) = false := by simpa using hex
        have hex₂' : existsPath fs₂ (cwd ++ x.file) = false := by rw [← hexq]; exact hex'
        simp [installFilesLoop, hres₁, hres₂, hg, hex', hex₂']
    · by_cases hx₂ : x.from_ = "build"
      · have hres₁ : resolveEntry cwd (some b₁) x = some (b₁ ++ x.file, b₁) := by
          simp [resolveEntry, hx, hx₂]
        have hres₂ : resolveEntry cwd (some b₂) x = some (b₂ ++ x.file, b₂) := by
          simp [resolveEntry, hx, hx₂]
        have hg : ¬ (x.from_ = "cwd" ∧ x.file = []) := fun hc => hx hc.1
        have hexq : existsPath fs₁ (b₁ ++ x.file) = existsPath fs₂ (b₂ ++ x.file) := by
          apply existsPath_eq_of_views
          intro t
          simpa only [List.append_assoc] using hb (x.file ++ t)
        have hsv : ∀ t, lookupFS fs₁ ((b₁ ++ x.file) ++ t)
            = lookupFS fs₂ ((b₂ ++ x.file) ++ t) := by
          intro t
          simpa only [List.append_assoc] using hb (x.file ++ t)
        by_cases hex : existsPath fs₁ (b₁ ++ x.file) = true
        · have hex₂ : existsPath fs₂ (b₂ ++ x.file) = true := by rw [← hexq]; exact hex
          have hcp₁ := copyPreserveRelBase_append fs₁ b₁ x.file root hnex
          have hcp₂ := copyPreserveRelBase_append fs₂ b₂ x.file root hnex
          simp only [installFilesLoop, hres₁, hres₂, if_neg hg, if_pos hex, if_pos hex₂,
            hcp₁, hcp₂]
          have hcw' : ∀ t, lookupFS (cpCopy fs₁ (b₁ ++ x.file) (root ++ x.file)) (cwd ++ t)
              = lookupFS (cpCopy fs₂ (b₂ ++ x.file) (root ++ x.file)) (cwd ++ t) := by
            intro t
            rw [lookupFS_cpCopy_not _ _ (hnp₁ t), lookupFS_cpCopy_not _ _ (hnp₁ t)]
            exact hcw t
          have hb' : ∀ t, lookupFS (cpCopy fs₁ (b₁ ++ x.file) (root ++ x.file)) (b₁ ++ t)
              = lookupFS (cpCopy fs₂ (b₂ ++ x.file) (root ++ x.file)) (b₂ ++ t) := by
            intro t
            rw [lookupFS_cpCopy_not _ _ (hnpb₁ t), lookupFS_cpCopy_not _ _ (hnpb₂ t)]
            exact hb t
          obtain ⟨ihf, ihq⟩ := ih _ _ hner hcw' hb'
          refine ⟨ihf, ?_⟩
          intro q hq
          rcases ihq q hq with ⟨heq, hsome⟩ | ⟨hu₁, hu₂⟩
          · exact Or.inl ⟨heq, hsome⟩
          · rw [hu₁, hu₂]
            exact cpCopy_pointwise_views hsv q
        · have hex' : existsPath fs₁ (b₁ ++ x.file) = false := by simpa using hex
          have hex₂' : existsPath fs₂ (b₂ ++ x.file) = false := by rw [← hexq]; exact hex'
          simp [installFilesLoop, hres₁, hres₂, hg, hex', hex₂']
      · have hres₁ : resolveEntry cwd (some b₁) x = none := by
          simp [resolveEntry, hx, hx₂]
        have hres₂ : resolveEntry cwd (some b₂) x = none := by
          simp [resolveEntry, hx, hx₂]
        simp [installFilesLoop, hres₁, hres₂]

/-! ### Characterizations of script staging and the build stage -/

theorem lookupFS_none_of_not_existsPath {fs : FS} {p : Path}
    (h : existsPath fs p = false) (t : Path) : lookupFS fs (p ++ t) = none := by
  cases hl : lookupFS fs (p ++ t) with
  | none => rfl
  | some c =>
    have : existsPath fs p = true :=
      (existsPath_iff_lookup fs p).mpr ⟨t, by rw [hl]; rfl⟩
    rw [this] at h
    cases h

theorem stageAndRunScript_fs_present {fs : FS} {cwd destDir script : Path} {ok : Bool}
    (hp : existsPath fs (destDir ++ [goBase script]) = true) :
    (stageAndRunScript fs cwd destDir script ok).2.1 = fs := by
  simp [stageAndRunScript, hp]

theorem stageAndRunScript_fs_copy {fs : FS} {cwd destDir script : Path} {ok : Bool}
    (hp : existsPath fs (destDir ++ [goBase script]) = false)
    (hs : existsPath fs (cwd ++ ".qp" :: script) = true) :
    (stageAndRunScript fs cwd destDir script ok).2.1
      = cpCopy fs (cwd ++ ".qp" :: script) (destDir ++ [goBase script]) := by
  simp [stageAndRunScript, hp, hs]

theorem stageAndRunScript_src_of_ok {fs : FS} {cwd destDir script : Path} {ok : Bool}
    (hf : (stageAndRunScript fs cwd destDir script ok).2.2 = false)
    (hp : existsPath fs (destDir ++ [goBase script]) = false) :
    existsPath fs (cwd ++ ".qp" :: script) = true := by
  by_contra hs
  have hs' : existsPath fs (cwd ++ ".qp" :: script) = false := by simpa using hs
  simp [stageAndRunScript, hp, hs'] at hf

theorem doBuild_ok_mkTemp {cfg : Config} {env : Env} {w : World}
    (h : (doBuild cfg env w).fatal = false) : env.mkTempOk = true := by
  by_contra hm
  have hm' : env.mkTempOk = false := by simpa using hm
  simp [doBuild, hm'] at h

theorem doBuild_tempNames (cfg : Config) (env : Env) (w : World)
    (hm : env.mkTempOk = true) :
    (doBuild cfg env w).world.tempNames
      = w.tempNames ++ ["qp_build_" ++ cfg.appName ++ "_" ++ env.mkTempSuffix] := by
  have hm' : (!env.mkTempOk) = false := by simp [hm]
  simp only [doBuild, hm', Bool.false_eq_true, if_false]
  split_ifs <;> rfl

theorem doBuild_lookup_not (cfg : Config) (env : Env) (w : World)
    (hm : env.mkTempOk = true) {q : Path}
    (hq : ¬ (tmpRoot ++ ["qp_build_" ++ cfg.appName ++ "_" ++ env.mkTempSuffix]) <+: q) :
    lookupFS (doBuild cfg env w).world.fs q = lookupFS w.fs q := by
  have hm' : (!env.mkTempOk) = false := by simp [hm]
  simp only [doBuild, hm', Bool.false_eq_true, if_false]
  split_ifs
  · exact buildFilesLoop_lookup_not _ _ _ _ _ hq
  · rw [stageAndRunScript_lookup_not _ _ _ _ hq]
    exact buildFilesLoop_lookup_not _ _ _ _ _ hq

/-- Parallel builds from equal working trees and equal (e.g. empty)
staging subtrees produce equal staging subtrees. -/
theorem doBuild_views (cfg : Config) (env₁ env₂ : Env) (w₁ w₂ : World)
    (hm₁ : env₁.mkTempOk = true) (hm₂ : env₂.mkTempOk = true)
    (hcwd : env₂.cwd = env₁.cwd)
    (d₁ : ¬ tmpRoot <+: env₁.cwd) (d₂ : ¬ env₁.cwd <+: tmpRoot)
    (hcw : ∀ r, lookupFS w₁.fs (env₁.cwd ++ r) = lookupFS w₂.fs (env₁.cwd ++ r))
    (hb : ∀ r, lookupFS w₁.fs
        ((tmpRoot ++ ["qp_build_" ++ cfg.appName ++ "_" ++ env₁.mkTempSuffix]) ++ r)
      = lookupFS w₂.fs
        ((tmpRoot ++ ["qp_build_" ++ cfg.appName ++ "_" ++ env₂.mkTempSuffix]) ++ r)) :
    ∀ r, lookupFS (doBuild cfg env₁ w₁).world.fs
        ((tmpRoot ++ ["qp_build_" ++ cfg.appName ++ "_" ++ env₁.mkTempSuffix]) ++ r)
      = lookupFS (doBuild cfg env₂ w₂).world.fs
        ((tmpRoot ++ ["qp_build_" ++ cfg.appName ++ "_" ++ env₂.mkTempSuffix]) ++ r) := by
  intro r
  have hm₁' : (!env₁.mkTempOk) = false := by simp [hm₁]
  have hm₂' : (!env₂.mkTempOk) = false := by simp [hm₂]
  have db₁ : ¬ (tmpRoot ++ ["qp_build_" ++ cfg.appName ++ "_" ++ env₁.mkTempSuffix])
      <+: env₁.cwd := not_prefix_append_left _ d₁
  have db₂ : ¬ env₁.cwd <+: (tmpRoot ++ ["qp_build_" ++ cfg.appName ++ "_" ++ env₁.mkTempSuffix]) :=
    not_prefix_of_append d₂ d₁ _
  have db₃ : ¬ (tmpRoot ++ ["qp_build_" ++ cfg.appName ++ "_" ++ env₂.mkTempSuffix])
      <+: env₁.cwd := not_prefix_append_left _ d₁
  have db₄ : ¬ env₁.cwd <+: (tmpRoot ++ ["qp_build_" ++ cfg.appName ++ "_" ++ env₂.mkTempSuffix]) :=
    not_prefix_of_append d₂ d₁ _
  have hloop := buildFilesLoop_views env₁.cwd cfg.buildFiles w₁.fs w₂.fs _ _ hcw hb
    db₁ db₂ db₃ db₄
  have hcw' : ∀ t, lookupFS (buildFilesLoop env₁.cwd
        (tmpRoot ++ ["qp_build_" ++ cfg.appName ++ "_" ++ env₁.mkTempSuffix])
        cfg.buildFiles w₁.fs).2 (env₁.cwd ++ t)
      = lookupFS (buildFilesLoop env₁.cwd
        (tmpRoot ++ ["qp_build_" ++ cfg.appName ++ "_" ++ env₂.mkTempSuffix])
        cfg.buildFiles w₂.fs).2 (env₁.cwd ++ t) := by
    intro t
    rw [buildFilesLoop_lookup_not _ _ _ _ _ (not_prefix_of_append db₁ db₂ t),
      buildFilesLoop_lookup_not _ _ _ _ _ (not_prefix_of_append db₃ db₄ t)]
    exact hcw t
  simp only [doBuild, hm₁', hm₂', Bool.false_eq_true, if_false, hcwd]
  split_ifs
  · exact hloop r
  · exact stageAndRunScript_views cfg.buildScript env₁.buildScriptOk env₂.buildScriptOk
      hcw' hloop r

theorem findTempBuildDir_fresh {app suffix : String} {names : List String}
    (h : ∀ n ∈ names, strHasPre ("qp_build_" ++ app ++ "_") n = false) :
    findTempBuildDir (names ++ ["qp_build_" ++ app ++ "_" ++ suffix]) true app
      = some (tmpRoot ++ ["qp_build_" ++ app ++ "_" ++ suffix]) := by
  simp only [findTempBuildDir, if_true]
  rw [List.find?_append, List.find?_eq_none.mpr (fun n hn => by simp [h n hn])]
  have hmatch : strHasPre ("qp_build_" ++ app ++ "_") ("qp_build_" ++ app ++ "_" ++ suffix)
      = true := strHasPre_append _ _
  simp [List.find?_cons, hmatch]

/-! ### Composing world bookkeeping across the install chain -/

theorem seqS_world {r : StepR} (k : World → StepR) (h : r.fatal = false) :
    (seqS r k).world = (k r.world).world := by
  rw [seqS_of_ok k h]

theorem seqS_world_cases {r : StepR} {k : World → StepR} :
    (seqS r k).world = r.world ∨ (seqS r k).world = (k r.world).world := by
  by_cases h : r.fatal
  · rw [seqS_of_fatal k h]
    exact Or.inl rfl
  · rw [seqS_of_ok k (by simpa using h)]
    exact Or.inr rfl

theorem seqS_lookup_pres {r : StepR} {k : World → StepR} {q : Path} {w : World}
    (hr : lookupFS r.world.fs q = lookupFS w.fs q)
    (hk : ∀ w', lookupFS (k w').world.fs q = lookupFS w'.fs q) :
    lookupFS (seqS r k).world.fs q = lookupFS w.fs q := by
  rcases seqS_world_cases (r := r) (k := k) with h | h <;> rw [h]
  · exact hr
  · rw [hk r.world]
    exact hr

theorem installFilesStep_lookup_not (cfg : Config) (env : Env) (d : Path) (w : World)
    {q : Path} (hq : ¬ d <+: q) :
    lookupFS (installFilesStep cfg env d w).world.fs q = lookupFS w.fs q :=
  installFilesLoop_lookup_not _ _ _ _ _ _ hq

theorem installScriptStep_lookup_not (cfg : Config) (env : Env) (d : Path) (w : World)
    {q : Path} (hq : ¬ d <+: q) :
    lookupFS (installScriptStep cfg env d w).world.fs q = lookupFS w.fs q := by
  simp only [installScriptStep]
  split_ifs
  · rfl
  · exact stageAndRunScript_lookup_not _ _ _ _ hq

theorem cleanupStep_lookup_not (cfg : Config) (env : Env) (w : World)
    {q : Path} (hq : ¬ tmpRoot <+: q) :
    lookupFS (cleanupStep cfg env w).world.fs q = lookupFS w.fs q := by
  simp only [cleanupStep]
  split_ifs
  · exact cleanupLoop_lookup_not _ hq _ _
  · rfl

theorem not_tmp_prefix_of_root {app : String} {q : Path}
    (hq : installRoot app <+: q) : ¬ tmpRoot <+: q := by
  intro h
  rcases List.prefix_or_prefix_of_prefix h hq with h' | h'
  · exact (tmp_installRoot_disj app).1 h'
  · exact (tmp_installRoot_disj app).2 h'

theorem doInstall_lookup_not (cfg : Config) (env : Env) (w : World) {q : Path}
    (hq₁ : ¬ installRoot cfg.appName <+: q) (hq₂ : ¬ tmpRoot <+: q) :
    lookupFS (doInstall cfg env w).world.fs q = lookupFS w.fs q := by
  simp only [doInstall]
  apply seqS_lookup_pres
  · rw [preStopStep_world]
  · intro w'
    apply seqS_lookup_pres
    · rw [mkdirInstallStep_world]
    · intro w''
      apply seqS_lookup_pres
      · exact installFilesStep_lookup_not _ _ _ _ hq₁
      · intro w₃
        apply seqS_lookup_pres
        · exact installScriptStep_lookup_not _ _ _ _ hq₁
        · intro w₄
          apply seqS_lookup_pres
          · rw [systemdInstallStep_world]
          · intro w₅
            exact cleanupStep_lookup_not _ _ _ hq₂

theorem doInstall_fatal_parts (cfg : Config) (env : Env) (w : World)
    (hok : (doInstall cfg env w).fatal = false) :
    (preStopStep cfg env w).fatal = false
    ∧ (mkdirInstallStep env (installRoot cfg.appName) w).fatal = false
    ∧ (installFilesStep cfg env (installRoot cfg.appName) w).fatal = false
    ∧ (installScriptStep cfg env (installRoot cfg.appName)
        ((installFilesStep cfg env (installRoot cfg.appName) w).world)).fatal = false
    ∧ (systemdInstallStep cfg env
        ((installScriptStep cfg env (installRoot cfg.appName)
          ((installFilesStep cfg env (installRoot cfg.appName) w).world)).world)).fatal
        = false := by
  simp only [doInstall] at hok
  obtain ⟨h1, hok⟩ := seqS_fatal_false hok
  rw [preStopStep_world] at hok
  obtain ⟨h2, hok⟩ := seqS_fatal_false hok
  rw [mkdirInstallStep_world] at hok
  obtain ⟨h3, hok⟩ := seqS_fatal_false hok
  obtain ⟨h4, hok⟩ := seqS_fatal_false hok
  obtain ⟨h5, _⟩ := seqS_fatal_false hok
  exact ⟨h1, h2, h3, h4, h5⟩

theorem doInstall_world_of_ok (cfg : Config) (env : Env) (w : World)
    (hok : (doInstall cfg env w).fatal = false) :
    (doInstall cfg env w).world
      = (cleanupStep cfg env
          ((installScriptStep cfg env (installRoot cfg.appName)
            ((installFilesStep cfg env (installRoot cfg.appName) w).world)).world)).world := by
  obtain ⟨h1, h2, h3, h4, h5⟩ := doInstall_fatal_parts cfg env w hok
  simp only [doInstall]
  rw [seqS_world _ h1]
  rw [preStopStep_world]
  rw [seqS_world _ h2]
  rw [mkdirInstallStep_world]
  rw [seqS_world _ h3]
  rw [seqS_world _ h4]
  rw [seqS_world _ h5]
  rw [systemdInstallStep_world]

theorem doInstall_tempNames (cfg : Config) (env : Env) (w : World)
    (hok : (doInstall cfg env w).fatal = false) (hro : env.tempReadOk = true) :
    (doInstall cfg env w).world.tempNames
      = w.tempNames.filter
          (fun n => !(strHasPre ("qp_build_" ++ cfg.appName ++ "_") n)) := by
  rw [doInstall_world_of_ok cfg env w hok]
  simp only [cleanupStep, hro, if_true]
  rw [installScriptStep_tempNames, installFilesStep_tempNames]

theorem doInstall_tmp_cleared (cfg : Config) (env : Env) (w : World)
    (hok : (doInstall cfg env w).fatal = false) (hro : env.tempReadOk = true)
    {n : String} (hn : strHasPre ("qp_build_" ++ cfg.appName ++ "_") n = true)
    {q : Path} (hq : (tmpRoot ++ [n]) <+: q)
    (hcase : n ∈ w.tempNames ∨ lookupFS w.fs q = none) :
    lookupFS (doInstall cfg env w).world.fs q = none := by
  have hq' : tmpRoot <+: q := (List.prefix_append tmpRoot [n]).trans hq
  have hroot : ¬ installRoot cfg.appName <+: q := by
    intro h
    exact not_tmp_prefix_of_root h hq'
  have hmid : lookupFS ((installScriptStep cfg env (installRoot cfg.appName)
      ((installFilesStep cfg env (installRoot cfg.appName) w).world)).world).fs q
      = lookupFS w.fs q := by
    rw [installScriptStep_lookup_not _ _ _ _ hroot,
      installFilesStep_lookup_not _ _ _ _ hroot]
  rw [doInstall_world_of_ok cfg env w hok]
  simp only [cleanupStep, hro, if_true]
  rcases hcase with hmem | hnone
  · apply cleanupLoop_removes_subtree hn hq
    rw [installScriptStep_tempNames, installFilesStep_tempNames]
    exact hmem
  · apply cleanupLoop_lookup_none
    rw [hmid]
    exact hnone

theorem doInstall_root_eq_script (cfg : Config) (env : Env) (w : World)
    (hok : (doInstall cfg env w).fatal = false) {q : Path}
    (hq : installRoot cfg.appName <+: q) :
    lookupFS (doInstall cfg env w).world.fs q
      = lookupFS ((installScriptStep cfg env (installRoot cfg.appName)
          ((installFilesStep cfg env (installRoot cfg.appName) w).world)).world).fs q := by
  rw [doInstall_world_of_ok cfg env w hok]
  exact cleanupStep_lookup_not _ _ _ (not_tmp_prefix_of_root hq)

/-- The install-script step is idempotent across two runs: with equal
working-tree views and the loop invariant relating the two mid-states
(each root location written identically in both runs or untouched in
run 1 and carrying run 1's final value in run 2), the second run's
script staging reproduces the first run's root contents. -/
theorem installScriptStep_idem (cfg : Config) (env₁ env₂ : Env) (root : Path)
    (hcwd : env₂.cwd = env₁.cwd) (w₁ w₂ : World)
    (hf₁ : (installScriptStep cfg env₁ root w₁).fatal = false)
    (hf₂ : (installScriptStep cfg env₂ root w₂).fatal = false)
    (hcw : ∀ r, lookupFS w₁.fs (env₁.cwd ++ r) = lookupFS w₂.fs (env₁.cwd ++ r))
    (hI : ∀ q, root <+: q →
      ((lookupFS w₁.fs q = lookupFS w₂.fs q) ∧ (lookupFS w₁.fs q).isSome = true)
      ∨ (lookupFS w₂.fs q
          = lookupFS (installScriptStep cfg env₁ root w₁).world.fs q)) :
    ∀ q, root <+: q →
      lookupFS (installScriptStep cfg env₂ root w₂).world.fs q
        = lookupFS (installScriptStep cfg env₁ root w₁).world.fs q := by
  intro q hq
  by_cases hsc : cfg.installScript = []
  · simp only [installScriptStep, hsc, if_pos rfl] at hI ⊢
    rcases hI q hq with ⟨he, _⟩ | he
    · exact he.symm
    · exact he
  · have hunf₁ : (installScriptStep cfg env₁ root w₁).world.fs
        = (stageAndRunScript w₁.fs env₁.cwd root cfg.installScript
            env₁.installScriptOk).2.1 := by
      simp [installScriptStep, hsc]
    have hunf₂ : (installScriptStep cfg env₂ root w₂).world.fs
        = (stageAndRunScript w₂.fs env₁.cwd root cfg.installScript
            env₂.installScriptOk).2.1 := by
      simp [installScriptStep, hsc, hcwd]
    have hff₁ : (stageAndRunScript w₁.fs env₁.cwd root cfg.installScript
        env₁.installScriptOk).2.2 = false := by
      have h := hf₁
      simp only [installScriptStep, hsc, if_neg hsc] at h
      exact h
    have hff₂ : (stageAndRunScript w₂.fs env₁.cwd root cfg.installScript
        env₂.installScriptOk).2.2 = false := by
      have h := hf₂
      simp only [installScriptStep, hsc, if_neg hsc, hcwd] at h
      exact h
    rw [hunf₁] at hI
    rw [hunf₁, hunf₂]
    by_cases hp₁ : existsPath w₁.fs (root ++ [goBase cfg.installScript]) = true
    · by_cases hp₂ : existsPath w₂.fs (root ++ [goBase cfg.installScript]) = true
      · rw [stageAndRunScript_fs_present hp₁] at hI ⊢
        rw [stageAndRunScript_fs_present hp₂]
        rcases hI q hq with ⟨he, _⟩ | he
        · exact he.symm
        · exact he
      · exfalso
        have hp₂' : existsPath w₂.fs (root ++ [goBase cfg.installScript]) = false := by
          simpa using hp₂
        obtain ⟨t, ht⟩ := (existsPath_iff_lookup _ _).mp hp₁
        have hqq : root <+: (root ++ [goBase cfg.installScript]) ++ t :=
          (List.prefix_append _ _).trans (List.prefix_append _ _)
        rw [stageAndRunScript_fs_present hp₁] at hI
        rcases hI _ hqq with ⟨he, _⟩ | he
        · exact hp₂ ((existsPath_iff_lookup _ _).mpr ⟨t, by rw [← he]; exact ht⟩)
        · exact hp₂ ((existsPath_iff_lookup _ _).mpr ⟨t, by rw [he]; exact ht⟩)
    · have hp₁' : existsPath w₁.fs (root ++ [goBase cfg.installScript]) = false := by
        simpa using hp₁
      have hsrc₁ : existsPath w₁.fs (env₁.cwd ++ ".qp" :: cfg.installScript) = true :=
        stageAndRunScript_src_of_ok hff₁ hp₁'
      rw [stageAndRunScript_fs_copy hp₁' hsrc₁] at hI ⊢
      by_cases hp₂ : existsPath w₂.fs (root ++ [goBase cfg.installScript]) = true
      · rw [stageAndRunScript_fs_present hp₂]
        by_cases hspq : (root ++ [goBase cfg.installScript]) <+: q
        · obtain ⟨t, rfl⟩ := hspq
          rcases hI _ hq with ⟨_, hsome⟩ | he
          · exact absurd ((existsPath_iff_lookup _ _).mpr ⟨t, hsome⟩) (by simp [hp₁'])
          · exact he
        · rw [lookupFS_cpCopy_not _ _ hspq]
          rcases hI q hq with ⟨he, _⟩ | he
          · exact he.symm
          · rw [lookupFS_cpCopy_not _ _ hspq] at he
            exact he
      · have hp₂' : existsPath w₂.fs (root ++ [goBase cfg.installScript]) = false := by
          simpa using hp₂
        have hsrc₂ : existsPath w₂.fs (env₁.cwd ++ ".qp" :: cfg.installScript) = true :=
          stageAndRunScript_src_of_ok hff₂ hp₂'
        rw [stageAndRunScript_fs_copy hp₂' hsrc₂]
        by_cases hspq : (root ++ [goBase cfg.installScript]) <+: q
        · obtain ⟨t, rfl⟩ := hspq
          rw [lookupFS_cpCopy_under, lookupFS_cpCopy_under]
          rw [lookupFS_none_of_not_existsPath hp₁' t,
            lookupFS_none_of_not_existsPath hp₂' t]
          rw [show lookupFS w₂.fs ((env₁.cwd ++ ".qp" :: cfg.installScript) ++ t)
              = lookupFS w₁.fs ((env₁.cwd ++ ".qp" :: cfg.installScript) ++ t) from by
            simpa only [List.append_assoc] using
              (hcw (".qp" :: cfg.installScript ++ t)).symm]
        · rw [lookupFS_cpCopy_not _ _ hspq, lookupFS_cpCopy_not _ _ hspq]
          rcases hI q hq with ⟨he, _⟩ | he
          · exact he.symm
          · rw [lookupFS_cpCopy_not _ _ hspq] at he
            exact he

/-- The core of the idempotence argument, over named intermediate
worlds: `W0b` after the first build, `W1` after the first install,
`W1b` after the second build. Equal working-tree views and clean temp
state let the two builds stage identical trees; the install loops then
write the root identically or leave run 2 carrying run 1's final
values, and the script step preserves that agreement. -/
theorem install_run_idem_aux (cfg : Config) (env₁ env₂ : Env)
    (w₀ W0b W1 W1b : World)
    (hW0b : W0b = (doBuild cfg env₁ w₀).world)
    (hW1 : W1 = (doInstall cfg env₁ W0b).world)
    (hW1b : W1b = (doBuild cfg env₂ W1).world)
    (hcwd : env₂.cwd = env₁.cwd)
    (hro₁ : env₁.tempReadOk = true) (hro₂ : env₂.tempReadOk = true)
    (hd₁ : ¬ installRoot cfg.appName <+: env₁.cwd)
    (hd₂ : ¬ env₁.cwd <+: installRoot cfg.appName)
    (hd₃ : ¬ tmpRoot <+: env₁.cwd) (hd₄ : ¬ env₁.cwd <+: tmpRoot)
    (hclean : ∀ e ∈ w₀.fs, ¬ tmpRoot <+: e.1)
    (hnames : ∀ n ∈ w₀.tempNames,
      strHasPre ("qp_build_" ++ cfg.appName ++ "_") n = false)
    (hne : ∀ e ∈ cfg.installFiles, e.file ≠ [])
    (hB₁ : (doBuild cfg env₁ w₀).fatal = false)
    (hI₁ : (doInstall cfg env₁ W0b).fatal = false)
    (hB₂ : (doBuild cfg env₂ W1).fatal = false)
    (hI₂ : (doInstall cfg env₂ W1b).fatal = false) :
    ∀ q, installRoot cfg.appName <+: q →
      lookupFS (doInstall cfg env₂ W1b).world.fs q = lookupFS W1.fs q := by
  intro q hq
  have hm₁ : env₁.mkTempOk = true := doBuild_ok_mkTemp hB₁
  have hm₂ : env₂.mkTempOk = true := doBuild_ok_mkTemp hB₂
  have hrtb : ∀ s : String, ¬ installRoot cfg.appName <+: (tmpRoot ++ [s]) := by
    intro s h
    rcases List.prefix_or_prefix_of_prefix h (List.prefix_append tmpRoot [s]) with h' | h'
    · exact (tmp_installRoot_disj cfg.appName).2 h'
    · exact (tmp_installRoot_disj cfg.appName).1 h'
  have hbtr : ∀ s : String, ¬ (tmpRoot ++ [s]) <+: installRoot cfg.appName := fun s h =>
    (tmp_installRoot_disj cfg.appName).1 ((List.prefix_append tmpRoot [s]).trans h)
  have hcb : ∀ (s : String) (r : Path), ¬ (tmpRoot ++ [s]) <+: env₁.cwd ++ r := by
    intro s r h
    exact (not_prefix_of_append hd₃ hd₄ r) ((List.prefix_append tmpRoot [s]).trans h)
  have hrc : ∀ r : Path, ¬ installRoot cfg.appName <+: env₁.cwd ++ r :=
    fun r => not_prefix_of_append hd₁ hd₂ r
  have htc : ∀ r : Path, ¬ tmpRoot <+: env₁.cwd ++ r :=
    fun r => not_prefix_of_append hd₃ hd₄ r
  have hbq : ∀ (s : String) {p : Path}, installRoot cfg.appName <+: p →
      ¬ (tmpRoot ++ [s]) <+: p := by
    intro s p hp h
    exact not_tmp_prefix_of_root hp ((List.prefix_append tmpRoot [s]).trans h)
  have hcwB1 : ∀ r, lookupFS W0b.fs (env₁.cwd ++ r) = lookupFS w₀.fs (env₁.cwd ++ r) := by
    intro r
    rw [hW0b]
    exact doBuild_lookup_not cfg env₁ w₀ hm₁ (hcb _ r)
  have hcwW1 : ∀ r, lookupFS W1.fs (env₁.cwd ++ r) = lookupFS W0b.fs (env₁.cwd ++ r) := by
    intro r
    rw [hW1]
    exact doInstall_lookup_not cfg env₁ W0b (hrc r) (htc r)
  have hcwB2 : ∀ r, lookupFS W1b.fs (env₁.cwd ++ r) = lookupFS W1.fs (env₁.cwd ++ r) := by
    intro r
    rw [hW1b]
    exact doBuild_lookup_not cfg env₂ W1 hm₂ (hcb _ r)
  have hcl₁ : ∀ r, lookupFS w₀.fs
      ((tmpRoot ++ ["qp_build_" ++ cfg.appName ++ "_" ++ env₁.mkTempSuffix]) ++ r)
      = none := by
    intro r
    exact lookupFS_none_of_clean hclean
      ((List.prefix_append tmpRoot _).trans (List.prefix_append _ r))
  have hb2clear : ∀ r, lookupFS W1.fs
      ((tmpRoot ++ ["qp_build_" ++ cfg.appName ++ "_" ++ env₂.mkTempSuffix]) ++ r)
      = none := by
    intro r
    rw [hW1]
    apply doInstall_tmp_cleared cfg env₁ W0b hI₁ hro₁ (strHasPre_append _ _)
      (List.prefix_append _ r)
    by_cases hnn : ("qp_build_" ++ cfg.appName ++ "_" ++ env₂.mkTempSuffix : String)
        = "qp_build_" ++ cfg.appName ++ "_" ++ env₁.mkTempSuffix
    · left
      rw [hW0b, doBuild_tempNames cfg env₁ w₀ hm₁, hnn]
      exact List.mem_append.mpr (Or.inr (List.mem_singleton_self _))
    · right
      have hnotb : ¬ (tmpRoot ++ ["qp_build_" ++ cfg.appName ++ "_" ++ env₁.mkTempSuffix])
          <+: (tmpRoot ++ ["qp_build_" ++ cfg.appName ++ "_" ++ env₂.mkTempSuffix]) ++ r := by
        intro hcon
        rw [List.append_assoc] at hcon
        have h2 := (List.prefix_append_right_inj tmpRoot).mp hcon
        rw [List.singleton_append] at h2
        exact hnn ((List.cons_prefix_cons.mp h2).1.symm)
      rw [hW0b, doBuild_lookup_not cfg env₁ w₀ hm₁ hnotb]
      exact lookupFS_none_of_clean hclean
        ((List.prefix_append tmpRoot _).trans (List.prefix_append _ r))
  have hcwB : ∀ r, lookupFS w₀.fs (env₁.cwd ++ r) = lookupFS W1.fs (env₁.cwd ++ r) := by
    intro r
    rw [hcwW1 r, hcwB1 r]
  have hbinit : ∀ r, lookupFS w₀.fs
      ((tmpRoot ++ ["qp_build_" ++ cfg.appName ++ "_" ++ env₁.mkTempSuffix]) ++ r)
      = lookupFS W1.fs
      ((tmpRoot ++ ["qp_build_" ++ cfg.appName ++ "_" ++ env₂.mkTempSuffix]) ++ r) := by
    intro r
    rw [hcl₁ r, hb2clear r]
  have hbviews : ∀ r, lookupFS W0b.fs
      ((tmpRoot ++ ["qp_build_" ++ cfg.appName ++ "_" ++ env₁.mkTempSuffix]) ++ r)
      = lookupFS W1b.fs
      ((tmpRoot ++ ["qp_build_" ++ cfg.appName ++ "_" ++ env₂.mkTempSuffix]) ++ r) := by
    intro r
    rw [hW0b, hW1b]
    exact doBuild_views cfg env₁ env₂ w₀ W1 hm₁ hm₂ hcwd hd₃ hd₄ hcwB hbinit r
  have hcwviews : ∀ r, lookupFS W0b.fs (env₁.cwd ++ r)
      = lookupFS W1b.fs (env₁.cwd ++ r) := by
    intro r
    rw [hcwB2 r, hcwW1 r]
  have hfind₁ : findTempBuildDir W0b.tempNames env₁.tempReadOk cfg.appName
      = some (tmpRoot ++ ["qp_build_" ++ cfg.appName ++ "_" ++ env₁.mkTempSuffix]) := by
    rw [hW0b, doBuild_tempNames cfg env₁ w₀ hm₁, hro₁]
    exact findTempBuildDir_fresh hnames
  have hfilter : ∀ n ∈ W1.tempNames,
      strHasPre ("qp_build_" ++ cfg.appName ++ "_") n = false := by
    intro n hn
    rw [hW1, doInstall_tempNames cfg env₁ W0b hI₁ hro₁] at hn
    simpa using (List.mem_filter.mp hn).2
  have hfind₂ : findTempBuildDir W1b.tempNames env₂.tempReadOk cfg.appName
      = some (tmpRoot ++ ["qp_build_" ++ cfg.appName ++ "_" ++ env₂.mkTempSuffix]) := by
    rw [hW1b, doBuild_tempNames cfg env₂ W1 hm₂, hro₂]
    exact findTempBuildDir_fresh hfilter
  have hM₁ : (installFilesStep cfg env₁ (installRoot cfg.appName) W0b).world.fs
      = (installFilesLoop env₁.cwd
          (some (tmpRoot ++ ["qp_build_" ++ cfg.appName ++ "_" ++ env₁.mkTempSuffix]))
          (installRoot cfg.appName) cfg.installFiles W0b.fs).2.1 := by
    simp only [installFilesStep, hfind₁]
  have hM₂ : (installFilesStep cfg env₂ (installRoot cfg.appName) W1b).world.fs
      = (installFilesLoop env₁.cwd
          (some (tmpRoot ++ ["qp_build_" ++ cfg.appName ++ "_" ++ env₂.mkTempSuffix]))
          (installRoot cfg.appName) cfg.installFiles W1b.fs).2.1 := by
    simp only [installFilesStep, hfind₂, hcwd]
  have hIL := (installFilesLoop_views env₁.cwd (installRoot cfg.appName)
      (tmpRoot ++ ["qp_build_" ++ cfg.appName ++ "_" ++ env₁.mkTempSuffix])
      (tmpRoot ++ ["qp_build_" ++ cfg.appName ++ "_" ++ env₂.mkTempSuffix])
      hd₁ hd₂ (hrtb _) (hbtr _) (hrtb _) (hbtr _)
      cfg.installFiles W0b.fs W1b.fs hne hcwviews hbviews).2
  have hp₁ := doInstall_fatal_parts cfg env₁ W0b hI₁
  have hp₂ := doInstall_fatal_parts cfg env₂ W1b hI₂
  have hcwM : ∀ r,
      lookupFS ((installFilesStep cfg env₁ (installRoot cfg.appName) W0b).world).fs
        (env₁.cwd ++ r)
      = lookupFS ((installFilesStep cfg env₂ (installRoot cfg.appName) W1b).world).fs
        (env₁.cwd ++ r) := by
    intro r
    rw [installFilesStep_lookup_not cfg env₁ _ W0b (hrc r),
        installFilesStep_lookup_not cfg env₂ _ W1b (hrc r)]
    exact hcwviews r
  have hIdem : ∀ p, installRoot cfg.appName <+: p →
      ((lookupFS ((installFilesStep cfg env₁ (installRoot cfg.appName) W0b).world).fs p
          = lookupFS ((installFilesStep cfg env₂ (installRoot cfg.appName) W1b).world).fs p)
        ∧ (lookupFS
            ((installFilesStep cfg env₁ (installRoot cfg.appName) W0b).world).fs p).isSome
          = true)
      ∨ (lookupFS ((installFilesStep cfg env₂ (installRoot cfg.appName) W1b).world).fs p
          = lookupFS ((installScriptStep cfg env₁ (installRoot cfg.appName)
              ((installFilesStep cfg env₁ (installRoot cfg.appName) W0b).world)).world).fs
            p) := by
    intro p hp
    rw [hM₁, hM₂]
    rcases hIL p hp with ⟨heq, hsome⟩ | ⟨hu₁, hu₂⟩
    · exact Or.inl ⟨heq, hsome⟩
    · right
      rw [hu₂]
      have h1 : lookupFS W1b.fs p = lookupFS W1.fs p := by
        rw [hW1b]
        exact doBuild_lookup_not cfg env₂ W1 hm₂ (hbq _ hp)
      have h2 : lookupFS W1.fs p
          = lookupFS ((installScriptStep cfg env₁ (installRoot cfg.appName)
              ((installFilesStep cfg env₁ (installRoot cfg.appName) W0b).world)).world).fs
            p := by
        rw [hW1]
        exact doInstall_root_eq_script cfg env₁ W0b hI₁ hp
      rw [h1, h2]
  have hscript := installScriptStep_idem cfg env₁ env₂ (installRoot cfg.appName) hcwd
      ((installFilesStep cfg env₁ (installRoot cfg.appName) W0b).world)
      ((installFilesStep cfg env₂ (installRoot cfg.appName) W1b).world)
      hp₁.2.2.2.1 hp₂.2.2.2.1 hcwM hIdem
  rw [doInstall_root_eq_script cfg env₂ W1b hI₂ hq, hW1,
      doInstall_root_eq_script cfg env₁ W0b hI₁ hq]
  exact hscript q hq

/-- C9 counterexample: with config `cfgNine`, whose single install file
has an empty relative path and `build` provenance (`files: [{file: "",
from: "build"}]`), `cp -r` copies the staging directory itself, under
its randomized `qp_build_app_<suffix>` name, into the install root.
Re-running the install with a different random suffix adds a second,
differently-named directory: both runs succeed, yet a path under the
install root (`/opt/app/qp_build_app_s2/x`) exists after the second run
and not after the first, so the resulting install roots are not
byte-identical. This refutes the unconditional idempotence claim. -/
theorem C9_idempotence_counterexample :
    (runAction "install" cfgNine envOk wNine).fatal = false
    ∧ (runAction "install" cfgNine { envOk with mkTempSuffix := "s2" }
        (runAction "install" cfgNine envOk wNine).world).fatal = false
    ∧ installRoot cfgNine.appName <+: ["opt", "app", "qp_build_app_s2", "x"]
    ∧ lookupFS (runAction "install" cfgNine { envOk with mkTempSuffix := "s2" }
          (runAction "install" cfgNine envOk wNine).world).world.fs
        ["opt", "app", "qp_build_app_s2", "x"]
      ≠ lookupFS (runAction "install" cfgNine envOk wNine).world.fs
        ["opt", "app", "qp_build_app_s2", "x"] := by
  refine ⟨by decide, by decide, ⟨["qp_build_app_s2", "x"], rfl⟩, by decide⟩

/-- C9 (amended): running `install` twice in a row yields a
byte-identical install root, provided every install-file entry names a
non-empty relative path (an empty `build`-provenance path instead copies
the randomized staging directory itself, accumulating differently-named
directories across runs — see the counterexample). Side conditions: the
two runs share the working directory, which lies outside `/opt/<app>`
and `/tmp`, the initial world has a clean temp area and no stale
`qp_build_<app>_` temp-dir names, and both runs succeed. Then every path
under the install root holds the same content after the second install
as after the first. -/
theorem C9_install_idempotent (cfg : Config) (env₁ env₂ : Env) (w₀ : World)
    (hcwd : env₂.cwd = env₁.cwd)
    (hro₁ : env₁.tempReadOk = true) (hro₂ : env₂.tempReadOk = true)
    (hd₁ : ¬ installRoot cfg.appName <+: env₁.cwd)
    (hd₂ : ¬ env₁.cwd <+: installRoot cfg.appName)
    (hd₃ : ¬ tmpRoot <+: env₁.cwd) (hd₄ : ¬ env₁.cwd <+: tmpRoot)
    (hclean : ∀ e ∈ w₀.fs, ¬ tmpRoot <+: e.1)
    (hnames : ∀ n ∈ w₀.tempNames,
      strHasPre ("qp_build_" ++ cfg.appName ++ "_") n = false)
    (hne : ∀ e ∈ cfg.installFiles, e.file ≠ [])
    (h₁ : (runAction "install" cfg env₁ w₀).fatal = false)
    (h₂ : (runAction "install" cfg env₂
        (runAction "install" cfg env₁ w₀).world).fatal = false) :
    ∀ q, installRoot cfg.appName <+: q →
      lookupFS (runAction "install" cfg env₂
          (runAction "install" cfg env₁ w₀).world).world.fs q
        = lookupFS (runAction "install" cfg env₁ w₀).world.fs q := by
  have hval : validateConfig cfg = true := by
    by_contra hv
    have hv' : validateConfig cfg = false := by simpa using hv
    simp [runAction, hv'] at h₁
  have hrun : ∀ (env : Env) (w : World), runAction "install" cfg env w
      = seqS (doBuild cfg env w) (fun w' => doInstall cfg env w') := by
    intro env w
    simp [runAction, hval]
  simp only [hrun] at h₁ h₂ ⊢
  have hB₁ : (doBuild cfg env₁ w₀).fatal = false := (seqS_fatal_false h₁).1
  have hI₁ : (doInstall cfg env₁ (doBuild cfg env₁ w₀).world).fatal = false :=
    (seqS_fatal_false h₁).2
  have hw₁ : (seqS (doBuild cfg env₁ w₀) (fun w' => doInstall cfg env₁ w')).world
      = (doInstall cfg env₁ (doBuild cfg env₁ w₀).world).world := seqS_world _ hB₁
  rw [hw₁] at h₂ ⊢
  have hB₂ : (doBuild cfg env₂
      (doInstall cfg env₁ (doBuild cfg env₁ w₀).world).world).fatal = false :=
    (seqS_fatal_false h₂).1
  have hI₂ : (doInstall cfg env₂ (doBuild cfg env₂
      (doInstall cfg env₁ (doBuild cfg env₁ w₀).world).world).world).fatal = false :=
    (seqS_fatal_false h₂).2
  have hw₂ : (seqS (doBuild cfg env₂
        (doInstall cfg env₁ (doBuild cfg env₁ w₀).world).world)
        (fun w' => doInstall cfg env₂ w')).world
      = (doInstall cfg env₂ (doBuild cfg env₂
          (doInstall cfg env₁ (doBuild cfg env₁ w₀).world).world).world).world :=
    seqS_world _ hB₂
  rw [hw₂]
  exact install_run_idem_aux cfg env₁ env₂ w₀ _ _ _ rfl rfl rfl hcwd hro₁ hro₂
    hd₁ hd₂ hd₃ hd₄ hclean hnames hne hB₁ hI₁ hB₂ hI₂

/-- Witness for C9: the demo config installed twice (fresh random
suffixes `s1`, `s2`) leaves `/opt/demo/bin/demo` identical. -/
theorem C9_install_idempotent_witness :
    (runAction "install" cfgDemo envOk wDemo).fatal = false
    ∧ lookupFS (runAction "install" cfgDemo { envOk with mkTempSuffix := "s2" }
          (runAction "install" cfgDemo envOk wDemo).world).world.fs
        ["opt", "demo", "bin", "demo"]
      = lookupFS (runAction "install" cfgDemo envOk wDemo).world.fs
        ["opt", "demo", "bin", "demo"] :=
  ⟨by decide,
    C9_install_idempotent cfgDemo envOk { envOk with mkTempSuffix := "s2" } wDemo
      rfl rfl rfl (by decide) (by decide) (by decide) (by decide)
      (by decide) (by decide) (by decide) (by decide) (by decide)
      ["opt", "demo", "bin", "demo"] ⟨["bin", "demo"], rfl⟩⟩

end QP
